import Mathlib

/-!
# Dice game: a verification development

Shallow embedding of `src/game/game.go` and `src/game/player.go`.

Conventions of the embedding.

* Go `int` is the 64-bit two's-complement integer: values are `Int`s and every
  arithmetic operation of the source goes through `wrapInt`.
* Go fixed-size arrays `[N]T` are functions `Fin N → T`; indexing with a Go
  `int` goes through `toIndex` and an index outside `0..N-1` is a run-time
  panic.
* The die source (`getDieRoll`) and standard input (`getUserChoice`) are
  streams: a function that rolls takes the list of values the die source will
  return next, a function that reads takes the list of lines standard input
  will deliver next, and both hand back what is left.  When a list is used up
  the run is `blocked`: it waits for a value that the supplied prefix of the
  stream does not hold.
* Printing is not modelled.
-/

namespace DiceGame

/-! ## Game rules (`game.go`, lines 12-22) -/

abbrev AmountOfRounds : Nat := 4
abbrev AmountOfPlayers : Nat := 4
abbrev AmountOfDice : Nat := 5
def MaxDieFace : Int := 6
def ZeroNumber : Int := 4
def MaxRoundScore : Int := AmountOfDice * MaxDieFace
def MaxPossibleScore : Int := MaxRoundScore * AmountOfRounds
def SimulatePlay : Bool := true

/-! ## Machine integers, array indices, outcomes of a run -/

/-- Two's-complement wrap-around of a 64-bit Go `int`. -/
def wrapInt (x : Int) : Int := (x + 2 ^ 63) % 2 ^ 64 - 2 ^ 63

/-- Go `a + b` on `int`. -/
def goAdd (a b : Int) : Int := wrapInt (a + b)

/-- Go `a - b` on `int`. -/
def goSub (a b : Int) : Int := wrapInt (a - b)

/-- Bounds check of an array access `arr[i]` on an array of length `n`. -/
def toIndex (n : Nat) (i : Int) : Option (Fin n) :=
  if h : 0 ≤ i ∧ i.toNat < n then some ⟨i.toNat, h.2⟩ else none

/-- Outcome of running a piece of the program on a finite prefix of its
streams: it returned, it panicked (index out of range), it is blocked waiting
for a roll or a line the prefix does not hold, or the iteration budget of the
model was used up. -/
inductive Res (α : Type) where
  | ok : α → Res α
  | panic : Res α
  | blocked : Res α
  | timeout : Res α

/-! ## Player (`player.go`) -/

/-- The `Player` struct. -/
structure Player where
  roundScores : Fin AmountOfRounds → Int
  currentRoundDice : Fin AmountOfDice → Int
  keptDiceRoll : Fin AmountOfDice → Bool
  playerName : String

/-- One pass of the loop body of `tallyRoundScore`. -/
def tallyStep (dice : Fin AmountOfDice → Int) (accumulator : Int) (i : Fin AmountOfDice) : Int :=
  if dice i ≠ ZeroNumber then goAdd accumulator (dice i) else accumulator

/-- The accumulator of `tallyRoundScore` after its loop. -/
def tallyDice (dice : Fin AmountOfDice → Int) : Int :=
  (List.finRange AmountOfDice).foldl (tallyStep dice) 0

/-- Embeds `tallyRoundScore(roundIndex)`: stores the tally in `roundScores[roundIndex-1]`. -/
def tallyRoundScore (player : Player) (roundIndex : Int) : Res Player :=
  match toIndex AmountOfRounds (goSub roundIndex 1) with
  | none => Res.panic
  | some r =>
    Res.ok { player with
      roundScores := Function.update player.roundScores r (tallyDice player.currentRoundDice) }

/-- The dice that score: the values different from `ZeroNumber`, in index order. -/
def scoringDice (dice : Fin AmountOfDice → Int) : List Int :=
  ((List.finRange AmountOfDice).map dice).filter (fun d => d ≠ ZeroNumber)

/-- Embeds `hasFinishedTurn`: no die is left unkept. -/
def hasFinishedTurn (player : Player) : Bool :=
  (List.finRange AmountOfDice).all (fun i => player.keptDiceRoll i)

/-- Embeds `getUnkeptDiceRolls`: the tally of the dice not marked as kept. -/
def getUnkeptDiceRolls (player : Player) : Int :=
  (List.finRange AmountOfDice).foldl
    (fun tally i => if !player.keptDiceRoll i then goAdd tally 1 else tally) 0

/-- Embeds `markAllDiceAsKept`: sets the flags one index after the other. -/
def markAllDiceAsKept (player : Player) : Player :=
  { player with
    keptDiceRoll := (List.finRange AmountOfDice).foldl
      (fun kept i => Function.update kept i true) player.keptDiceRoll }

/-- Embeds `clearRound`: first the flags, then the dice. -/
def clearRound (player : Player) : Player :=
  { player with
    keptDiceRoll := (List.finRange AmountOfDice).foldl
      (fun kept i => Function.update kept i false) player.keptDiceRoll
    currentRoundDice := (List.finRange AmountOfDice).foldl
      (fun dice i => Function.update dice i 0) player.currentRoundDice }

/-- Embeds `getDieRoll(diceFace)`: the next value of the die source.  The source is
an external library; its contract (a value in `[1, diceFace]`) is a hypothesis
of the theorems that need it, not part of the model. -/
def getDieRoll (_diceFace : Int) (rolls : List Int) : Res (Int × List Int) :=
  match rolls with
  | [] => Res.blocked
  | r :: rest => Res.ok (r, rest)

/-- The loop of `populateRoundDice` over the indices still to visit. -/
def populateFrom : List (Fin AmountOfDice) → Player → List Int → Res (Player × List Int)
  | [], player, rolls => Res.ok (player, rolls)
  | i :: is, player, rolls =>
    if !player.keptDiceRoll i then
      match getDieRoll MaxDieFace rolls with
      | Res.ok (r, rest) =>
        populateFrom is
          { player with currentRoundDice := Function.update player.currentRoundDice i r } rest
      | Res.panic => Res.panic
      | Res.blocked => Res.blocked
      | Res.timeout => Res.timeout
    else populateFrom is player rolls

/-- Embeds `populateRoundDice`: rolls every die that is not kept. -/
def populateRoundDice (player : Player) (rolls : List Int) : Res (Player × List Int) :=
  populateFrom (List.finRange AmountOfDice) player rolls

/-- Embeds `calcuateTotalGameScore`: adds the round scores together. -/
def calcuateTotalGameScore (player : Player) : Int :=
  (List.finRange AmountOfRounds).foldl
    (fun totalScore i => goAdd totalScore (player.roundScores i)) 0

/-! ### Console input -/

/-- A line as delivered by one `ReadString` call: its bytes. -/
abbrev Line := List Nat

/-- Embeds `len(strconv.Itoa(AmountOfDice))`. -/
def byteSize : Nat := (Nat.toDigits 10 AmountOfDice).length

/-- Go `string(b)` for a byte `b`: the UTF-8 encoding of the code point `b`. -/
def runeString (b : Nat) : List Nat :=
  if b < 128 then [b] else [192 + b / 64, 128 + b % 64]

/-- Embeds `getUserChoice`: reads one line and returns the byte at `byteSize-1` as a
string.  A line without that byte makes the index expression panic. -/
def getUserChoice (inputs : List Line) : Res (List Nat × List Line) :=
  match inputs with
  | [] => Res.blocked
  | input :: rest =>
    match input[byteSize - 1]? with
    | none => Res.panic
    | some b => Res.ok (runeString b, rest)

/-- Embeds `strconv.Atoi` (Go standard library, by its documentation): an optional
sign followed by one or more decimal digits, within the range of `int`. -/
def atoi (s : List Nat) : Option Int :=
  let body : Bool × List Nat :=
    match s with
    | 43 :: t => (false, t)
    | 45 :: t => (true, t)
    | _ => (false, s)
  if body.2.isEmpty then none
  else if body.2.all (fun c => decide (48 ≤ c ∧ c ≤ 57)) then
    let n : Int := (body.2.foldl (fun acc c => acc * 10 + (c - 48)) 0 : Nat)
    let v : Int := if body.1 then -n else n
    if -(2 ^ 63) ≤ v ∧ v < 2 ^ 63 then some v else none
  else none

/-- Embeds `isValidIndexChoice(choice, lowBound, highBound)`. -/
def isValidIndexChoice (choice lowBound highBound : Int) : Bool :=
  if choice ≤ highBound ∧ choice ≥ lowBound then true else false

/-- Embeds `getValidatedChoiceIndex`: reads lines until one names a die in
`[1, AmountOfDice]` that is not kept.  The first two matches are the call of
`getUserChoice`, written out so that the recursion is on the list of lines;
`player.isDieKept(num-1)` is the array access `keptDiceRoll[num-1]`.  Each
recursive call of the source has read one more line. -/
def getValidatedChoiceIndex (player : Player) : List Line → Res (Int × List Line)
  | [] => Res.blocked
  | input :: rest =>
    match input[byteSize - 1]? with
    | none => Res.panic
    | some b =>
      match atoi (runeString b) with
      | none => getValidatedChoiceIndex player rest
      | some num =>
        if isValidIndexChoice num 1 AmountOfDice then
          match toIndex AmountOfDice (goSub num 1) with
          | none => Res.panic
          | some i =>
            if !player.keptDiceRoll i then Res.ok (num, rest)
            else getValidatedChoiceIndex player rest
        else getValidatedChoiceIndex player rest

/-- The loop of `exhaustUntilAllChosenDiceKept` with `n` passes left. -/
def exhaustLoop : Nat → Player → List Line → Res (Player × List Line)
  | 0, player, inputs => Res.ok (player, inputs)
  | n + 1, player, inputs =>
    match getValidatedChoiceIndex player inputs with
    | Res.ok (num, rest) =>
      match toIndex AmountOfDice (goSub num 1) with
      | none => Res.panic
      | some i =>
        exhaustLoop n
          { player with keptDiceRoll := Function.update player.keptDiceRoll i true } rest
    | Res.panic => Res.panic
    | Res.blocked => Res.blocked
    | Res.timeout => Res.timeout

/-- Embeds `exhaustUntilAllChosenDiceKept(userChoice)`: `for i := 0; i < userChoice; i++`. -/
def exhaustUntilAllChosenDiceKept (player : Player) (userChoice : Int)
    (inputs : List Line) : Res (Player × List Line) :=
  exhaustLoop userChoice.toNat player inputs

/-- The keep count `chooseKeptDice` works with: the literal `"5"` when
`SimulatePlay` is set, a line of standard input otherwise. -/
def keepCountChoice (simulatePlay : Bool) (inputs : List Line) : Res (List Nat × List Line) :=
  if simulatePlay then Res.ok ([53], inputs) else getUserChoice inputs

/-- Embeds `chooseKeptDice`.  The build-time constant `SimulatePlay` is a parameter,
so that both branches of `if SimulatePlay` are covered; the shipped program is
`chooseKeptDice SimulatePlay`. -/
def chooseKeptDice (simulatePlay : Bool) (player : Player) (inputs : List Line) :
    Res (Player × List Line) :=
  if hasFinishedTurn player then Res.ok (player, inputs)
  else
    let numberOfUnkeptDiceRolls := getUnkeptDiceRolls player
    if numberOfUnkeptDiceRolls = 1 then Res.ok (markAllDiceAsKept player, inputs)
    else
      match keepCountChoice simulatePlay inputs with
      | Res.ok (choice, rest) =>
        match atoi choice with
        | none => Res.ok (player, rest)
        | some userChoice =>
          if isValidIndexChoice userChoice 1 AmountOfDice then
            if userChoice = numberOfUnkeptDiceRolls then Res.ok (markAllDiceAsKept player, rest)
            else exhaustUntilAllChosenDiceKept player userChoice rest
          else Res.ok (player, rest)
      | Res.panic => Res.panic
      | Res.blocked => Res.blocked
      | Res.timeout => Res.timeout

/-- Whether a call of `chooseKeptDice` reads a keep count and turns it down:
the count is not a number, or it fails `isValidIndexChoice(_, 1, AmountOfDice)`. -/
def keepCountRejected (simulatePlay : Bool) (player : Player) (inputs : List Line) : Bool :=
  if hasFinishedTurn player then false
  else if getUnkeptDiceRolls player = 1 then false
  else
    match keepCountChoice simulatePlay inputs with
    | Res.ok (choice, _) =>
      match atoi choice with
      | none => true
      | some userChoice => !isValidIndexChoice userChoice 1 AmountOfDice
    | _ => false

/-- What the program still has to consume: die rolls and input lines. -/
structure World where
  rolls : List Int
  inputs : List Line

/-- What the roll-keep loop of `takeTurn` leaves behind.  `iterations` and
`rejected` are bookkeeping for the statements about the loop: how many times
the body ran, and in how many of those runs the keep count was rejected.
They do not influence the run. -/
structure LoopExit where
  player : Player
  world : World
  iterations : Nat
  rejected : Nat

/-- The loop `for !player.hasFinishedTurn() { populateRoundDice; chooseKeptDice }`
of `takeTurn`, allowed at most `fuel` passes. -/
def takeTurnLoop (simulatePlay : Bool) : Nat → Player → World → Res LoopExit
  | 0, player, w =>
    if hasFinishedTurn player then Res.ok ⟨player, w, 0, 0⟩ else Res.timeout
  | fuel + 1, player, w =>
    if hasFinishedTurn player then Res.ok ⟨player, w, 0, 0⟩
    else
      match populateRoundDice player w.rolls with
      | Res.ok (rolled, rolls) =>
        match chooseKeptDice simulatePlay rolled w.inputs with
        | Res.ok (chosen, inputs) =>
          match takeTurnLoop simulatePlay fuel chosen ⟨rolls, inputs⟩ with
          | Res.ok e =>
            Res.ok ⟨e.player, e.world, e.iterations + 1,
              e.rejected + (if keepCountRejected simulatePlay rolled w.inputs then 1 else 0)⟩
          | Res.panic => Res.panic
          | Res.blocked => Res.blocked
          | Res.timeout => Res.timeout
        | Res.panic => Res.panic
        | Res.blocked => Res.blocked
        | Res.timeout => Res.timeout
      | Res.panic => Res.panic
      | Res.blocked => Res.blocked
      | Res.timeout => Res.timeout

/-- Embeds `takeTurn(roundIndex)`: the loop, then `tallyRoundScore` and `clearRound`. -/
def takeTurn (simulatePlay : Bool) (fuel : Nat) (player : Player) (roundIndex : Int)
    (w : World) : Res (Player × World) :=
  match takeTurnLoop simulatePlay fuel player w with
  | Res.ok e =>
    match tallyRoundScore e.player roundIndex with
    | Res.ok tallied => Res.ok (clearRound tallied, e.world)
    | Res.panic => Res.panic
    | Res.blocked => Res.blocked
    | Res.timeout => Res.timeout
  | Res.panic => Res.panic
  | Res.blocked => Res.blocked
  | Res.timeout => Res.timeout

/-! ## Game (`game.go`) -/

/-- The `Game` struct.  `players` holds the four `Player` objects that
`NewGame` allocates, by value. -/
structure Game where
  players : Fin AmountOfPlayers → Player
  playerHasStarted : Fin AmountOfPlayers → Bool
  roundWinner : Fin AmountOfRounds → Int
  roundIndex : Int
  gameWinner : Int

/-- One pass of the loop of `calculateGameWinner`; the state is
`(winningPlayer, winningTotal)`. -/
def gameWinnerStep (game : Game) (acc : Int × Int) (i : Fin AmountOfPlayers) : Int × Int :=
  let playerTotal := calcuateTotalGameScore (game.players i)
  if playerTotal < acc.2 then (((i : Nat) : Int), playerTotal) else acc

/-- Embeds `calculateGameWinner`. -/
def calculateGameWinner (game : Game) : Game :=
  { game with
    gameWinner :=
      ((List.finRange AmountOfPlayers).foldl (gameWinnerStep game) (0, MaxPossibleScore)).1 }

/-- One pass of the loop of `calculateRoundWinner`; the state is
`(lowestScoreIndex, lowestScore)`. -/
def roundWinnerStep (game : Game) (r : Fin AmountOfRounds) (acc : Int × Int)
    (i : Fin AmountOfPlayers) : Int × Int :=
  if (game.players i).roundScores r < acc.2 then
    (((i : Nat) : Int), (game.players i).roundScores r)
  else acc

/-- Embeds `calculateRoundWinner`: `roundScores[game.roundIndex]` is read for every
player and `roundWinner[game.roundIndex]` is written. -/
def calculateRoundWinner (game : Game) : Res Game :=
  match toIndex AmountOfRounds game.roundIndex with
  | none => Res.panic
  | some r =>
    Res.ok { game with
      roundWinner := Function.update game.roundWinner r
        ((List.finRange AmountOfPlayers).foldl (roundWinnerStep game r) (0, MaxRoundScore)).1 }

/-- Embeds `contains(playerArray, player)`. -/
def contains (playerArray : Fin AmountOfPlayers → Int) (player : Int) : Bool :=
  (List.finRange AmountOfPlayers).any (fun i => playerArray i == player)

/-- The loop `for game.hasPlayerGoneFirst(randomPlayer) { randomPlayer = getDieRoll(..) - 1 }`,
where `hasPlayerGoneFirst(index)` is the array access `playerHasStarted[index]`:
returns the index of the starter. -/
def pickStarter (game : Game) (randomPlayer : Int) (rolls : List Int) :
    Res (Fin AmountOfPlayers × List Int) :=
  match rolls with
  | [] =>
    match toIndex AmountOfPlayers randomPlayer with
    | none => Res.panic
    | some i => if game.playerHasStarted i then Res.blocked else Res.ok (i, [])
  | r :: rest =>
    match toIndex AmountOfPlayers randomPlayer with
    | none => Res.panic
    | some i =>
      if game.playerHasStarted i then pickStarter game (goSub r 1) rest
      else Res.ok (i, r :: rest)

/-- The loop `for contains(playerOrder, randomPlayer) { randomPlayer = getDieRoll(..) - 1 }`. -/
def pickNext (playerOrder : Fin AmountOfPlayers → Int) (randomPlayer : Int)
    (rolls : List Int) : Res (Int × List Int) :=
  match rolls with
  | [] => if contains playerOrder randomPlayer then Res.blocked else Res.ok (randomPlayer, [])
  | r :: rest =>
    if contains playerOrder randomPlayer then pickNext playerOrder (goSub r 1) rest
    else Res.ok (randomPlayer, r :: rest)

/-- The loop `for i := 1; i < AmountOfPlayers; i++` of `getRoundPlayerOrder`
over the slots still to fill. -/
def fillOrder : List (Fin AmountOfPlayers) → (Fin AmountOfPlayers → Int) → List Int →
    Res ((Fin AmountOfPlayers → Int) × List Int)
  | [], playerOrder, rolls => Res.ok (playerOrder, rolls)
  | i :: is, playerOrder, rolls =>
    match getDieRoll AmountOfPlayers rolls with
    | Res.ok (r, rest) =>
      match pickNext playerOrder (goSub r 1) rest with
      | Res.ok (randomPlayer, rest2) =>
        fillOrder is (Function.update playerOrder i randomPlayer) rest2
      | Res.panic => Res.panic
      | Res.blocked => Res.blocked
      | Res.timeout => Res.timeout
    | Res.panic => Res.panic
    | Res.blocked => Res.blocked
    | Res.timeout => Res.timeout

/-- The array `playerOrder` of `getRoundPlayerOrder` after its first loop:
the zero array with every slot set to the placeholder `-1`. -/
def unsetOrder : Fin AmountOfPlayers → Int :=
  (List.finRange AmountOfPlayers).foldl (fun order i => Function.update order i (-1))
    (fun _ => 0)

/-- Embeds `getRoundPlayerOrder`: returns the order, the game with the starter
marked, and the rolls left. -/
def getRoundPlayerOrder (game : Game) (rolls : List Int) :
    Res ((Fin AmountOfPlayers → Int) × Game × List Int) :=
  match getDieRoll AmountOfPlayers rolls with
  | Res.ok (r, rest) =>
    match pickStarter game (goSub r 1) rest with
    | Res.ok (starter, rest2) =>
      let game2 : Game :=
        { game with playerHasStarted := Function.update game.playerHasStarted starter true }
      match fillOrder [1, 2, 3] (Function.update unsetOrder 0 ((starter : Nat) : Int)) rest2 with
      | Res.ok (order, rest3) => Res.ok (order, game2, rest3)
      | Res.panic => Res.panic
      | Res.blocked => Res.blocked
      | Res.timeout => Res.timeout
    | Res.panic => Res.panic
    | Res.blocked => Res.blocked
    | Res.timeout => Res.timeout
  | Res.panic => Res.panic
  | Res.blocked => Res.blocked
  | Res.timeout => Res.timeout

/-- One entry of a log of `getRoundPlayerOrder` calls: the game as it was
when the call was made, and the order the call returned. -/
structure OrderCall where
  before : Game
  order : Fin AmountOfPlayers → Int

/-- Successive calls of `getRoundPlayerOrder`, one for each of the given die
streams (what the die source holds when that call is made), each on the game
the previous call left; returns the log of the calls.  Nothing else in the
program writes `playerHasStarted`. -/
def roundOrders : List (List Int) → Game → Res (List OrderCall × Game)
  | [], game => Res.ok ([], game)
  | rolls :: streams, game =>
    match getRoundPlayerOrder game rolls with
    | Res.ok (order, game2, _) =>
      match roundOrders streams game2 with
      | Res.ok (log, game3) => Res.ok (⟨game, order⟩ :: log, game3)
      | Res.panic => Res.panic
      | Res.blocked => Res.blocked
      | Res.timeout => Res.timeout
    | Res.panic => Res.panic
    | Res.blocked => Res.blocked
    | Res.timeout => Res.timeout

/-! ## Specification vocabulary and fixtures -/

/-- Number of dice not marked as kept (the `u` of the specification). -/
def unkeptCount (player : Player) : Nat :=
  ((List.finRange AmountOfDice).filter (fun i => !player.keptDiceRoll i)).length

/-- A player as `NewGame` allocates it: the zero value of the struct. -/
def freshPlayer : Player := ⟨fun _ => 0, fun _ => 0, fun _ => false, ""⟩

/-- A player in the middle of a turn, with the given dice and kept flags. -/
def fixturePlayer (dice : List Int) (kept : List Bool) : Player :=
  ⟨fun _ => 0, fun i => dice.getD i 0, fun i => kept.getD i false, "Tyler"⟩

/-- A player with the given four round scores. -/
def scoredPlayer (scores : List Int) : Player :=
  ⟨fun r => scores.getD r 0, fun _ => 0, fun _ => false, "David"⟩

/-- A game at round index `round` whose player `i` has the `i`-th of the
given lists as round scores; nobody has started. -/
def fixtureGame (round : Int) (scores : List (List Int)) : Game :=
  ⟨fun i => scoredPlayer (scores.getD i []), fun _ => false, fun _ => 0, round, 0⟩

/-- Die values and input lines of a turn of three passes: the keep count
`x` is rejected, then `2` with the dice `1` and `3`, then `3`. -/
def threePassWorld : World :=
  ⟨[3, 1, 6, 2, 5, 4, 4, 1, 2, 6, 5, 3, 1], [[120, 10], [50, 10], [49, 10], [51, 10], [51, 10]]⟩

/-- Die values and input lines of a turn of six passes: five keep counts
that are rejected (`x`, `0`, `9`, `-1`, `7`), then `5`. -/
def sixPassWorld : World :=
  ⟨[3, 1, 6, 2, 5, 4, 4, 1, 2, 6, 5, 3, 1, 1, 2, 6, 6, 3, 2, 5, 1, 4, 3, 6, 2, 2, 5, 1, 3, 4],
   [[120, 10], [48, 10], [57, 10], [45, 49, 10], [55, 10], [53, 10]]⟩

/-! ## Rounds and construction (`game.go`) -/

/-- The loop `for i := range playerOrder { game.players[playerOrder[i]].takeTurn(game.roundIndex + 1) }`
of `playRound`, over the slots of the order still to visit. -/
def takeTurns (simulatePlay : Bool) (fuel : Nat) (playerOrder : Fin AmountOfPlayers → Int) :
    List (Fin AmountOfPlayers) → Game → World → Res (Game × World)
  | [], game, w => Res.ok (game, w)
  | i :: is, game, w =>
    match toIndex AmountOfPlayers (playerOrder i) with
    | none => Res.panic
    | some j =>
      match takeTurn simulatePlay fuel (game.players j) (goAdd game.roundIndex 1) w with
      | Res.ok (played, w2) =>
        takeTurns simulatePlay fuel playerOrder is
          { game with players := Function.update game.players j played } w2
      | Res.panic => Res.panic
      | Res.blocked => Res.blocked
      | Res.timeout => Res.timeout

/-- Embeds `playRound`: the order, the turns, `calculateRoundWinner`, then
`game.roundIndex++`.  The two display calls only read entries that the turns
and `calculateRoundWinner` have already accessed, and are left out. -/
def playRound (simulatePlay : Bool) (fuel : Nat) (game : Game) (w : World) :
    Res (Game × World) :=
  match getRoundPlayerOrder game w.rolls with
  | Res.ok (playerOrder, game1, rolls) =>
    match takeTurns simulatePlay fuel playerOrder (List.finRange AmountOfPlayers) game1
        ⟨rolls, w.inputs⟩ with
    | Res.ok (game2, w2) =>
      match calculateRoundWinner game2 with
      | Res.ok game3 => Res.ok ({ game3 with roundIndex := goAdd game3.roundIndex 1 }, w2)
      | Res.panic => Res.panic
      | Res.blocked => Res.blocked
      | Res.timeout => Res.timeout
    | Res.panic => Res.panic
    | Res.blocked => Res.blocked
    | Res.timeout => Res.timeout
  | Res.panic => Res.panic
  | Res.blocked => Res.blocked
  | Res.timeout => Res.timeout

/-- The zero value `Game{}`.  Its `players` are nil pointers, which `NewGame`
overwrites before anything reads them; they are shown here as zero players. -/
def zeroGame : Game := ⟨fun _ => freshPlayer, fun _ => false, fun _ => 0, 0, 0⟩

/-- Embeds `NewGame`: every slot of `players` receives `new(Player)`; no other
field is assigned. -/
def NewGame (game : Game) : Game :=
  { game with
    players := (List.finRange AmountOfPlayers).foldl
      (fun players i => Function.update players i freshPlayer) game.players }

/-! ## Vocabulary for the die-index prompt -/

/-- The number that `getUserChoice` followed by `strconv.Atoi` reads from a
line, if any. -/
def lineNumber (input : Line) : Option Int :=
  match input[byteSize - 1]? with
  | none => none
  | some b => atoi (runeString b)

/-- The die a line names for a player: the die `i` with the line's number
equal to `i + 1` that is not kept, if there is one. -/
def acceptedIndex (player : Player) (input : Line) : Option (Fin AmountOfDice) :=
  (List.finRange AmountOfDice).find?
    (fun i => lineNumber input == some (((i : Nat) : Int) + 1) && !player.keptDiceRoll i)

/-- How many of the lines, read in order, name a die that is unkept at the
moment the line is read, each such die being kept from then on. -/
def acceptCount : Player → List Line → Nat
  | _, [] => 0
  | player, input :: rest =>
    match acceptedIndex player input with
    | none => acceptCount player rest
    | some i =>
      acceptCount { player with keptDiceRoll := Function.update player.keptDiceRoll i true } rest
        + 1

/-- A game at the end of its fourth round: every player has started once. -/
def allStartedGame : Game := ⟨fun _ => freshPlayer, fun _ => true, fun _ => 0, 4, 0⟩

/-- The die source of a first round played with `SimulatePlay`: four rolls
for the order, five dice for each of the four turns, one value left over. -/
def firstRoundWorld : World :=
  ⟨[1, 2, 3, 4, 6, 6, 1, 2, 4, 3, 3, 4, 4, 1, 5, 5, 5, 5, 5, 1, 1, 2, 4, 6, 9], []⟩

/-! ## Basic facts -/

theorem finRange_five :
    List.finRange AmountOfDice = [(0 : Fin 5), 1, 2, 3, 4] := by
  decide

theorem finRange_four :
    List.finRange 4 = [(0 : Fin 4), 1, 2, 3] := by
  decide

theorem wrapInt_of_fits (x : Int) (h1 : -(2 ^ 63) ≤ x) (h2 : x < 2 ^ 63) : wrapInt x = x := by
  unfold wrapInt
  omega

theorem wrapInt_add_wrapInt_left (a b : Int) : wrapInt (wrapInt a + b) = wrapInt (a + b) := by
  unfold wrapInt
  omega

theorem toIndex_eq_some (n : Nat) (i : Int) (k : Fin n) :
    toIndex n i = some k ↔ i = (k : Nat) := by
  unfold toIndex
  constructor
  · intro h
    split at h
    · rename_i hh
      simp only [Option.some.injEq] at h
      subst h
      simp only
      omega
    · simp at h
  · intro h
    subst h
    have : (0 : Int) ≤ (k : Nat) ∧ ((k : Nat) : Int).toNat < n := by
      constructor
      · omega
      · simp
    rw [dif_pos this]
    simp

/-! ## Tally -/

theorem wrapInt_zero : wrapInt 0 = 0 := by decide

theorem tally_foldl (dice : Fin AmountOfDice → Int) (l : List (Fin AmountOfDice)) (acc : Int) :
    l.foldl (tallyStep dice) (wrapInt acc)
      = wrapInt (acc + ((l.map dice).filter (fun d => d ≠ ZeroNumber)).sum) := by
  induction l generalizing acc with
  | nil => simp
  | cons i is ih =>
    by_cases h : dice i = ZeroNumber
    · simp [tallyStep, h, ih]
    · simp [tallyStep, h, goAdd, wrapInt_add_wrapInt_left, ih, add_assoc]

theorem tallyDice_eq (dice : Fin AmountOfDice → Int) :
    tallyDice dice = wrapInt (scoringDice dice).sum := by
  have h := tally_foldl dice (List.finRange AmountOfDice) 0
  rw [wrapInt_zero, zero_add] at h
  exact h

theorem roundSlot (roundIndex : Int) (h1 : 1 ≤ roundIndex) (h2 : roundIndex ≤ AmountOfRounds) :
    ∃ r : Fin AmountOfRounds, ((r : Nat) : Int) = roundIndex - 1 ∧
      toIndex AmountOfRounds (goSub roundIndex 1) = some r := by
  have h2' : roundIndex ≤ 4 := h2
  have hw : goSub roundIndex 1 = roundIndex - 1 := by
    unfold goSub
    apply wrapInt_of_fits <;> omega
  have hlt : (roundIndex - 1).toNat < AmountOfRounds := by
    omega
  refine ⟨⟨(roundIndex - 1).toNat, hlt⟩, ?_, ?_⟩
  · simp only
    omega
  · rw [hw, toIndex_eq_some]
    simp only
    omega

/-- C1. For every player and every round number `roundIndex` in
`1..AmountOfRounds`, `tallyRoundScore(roundIndex)` returns and changes only
`roundScores[roundIndex-1]`, which receives the sum, in Go `int` arithmetic,
of the `currentRoundDice` values different from `ZeroNumber`: a die showing 4
contributes nothing, however many there are.  Whenever that sum fits an `int`
(as it does for dice values of any die source) the stored value is the sum
itself. -/
theorem tallyRoundScore_excludes_zero_number (player : Player) (roundIndex : Int)
    (h1 : 1 ≤ roundIndex) (h2 : roundIndex ≤ AmountOfRounds) :
    ∃ r : Fin AmountOfRounds, ((r : Nat) : Int) = roundIndex - 1 ∧
      tallyRoundScore player roundIndex
        = Res.ok { player with
            roundScores := Function.update player.roundScores r
              (wrapInt (scoringDice player.currentRoundDice).sum) } ∧
      (-(2 ^ 63) ≤ (scoringDice player.currentRoundDice).sum →
        (scoringDice player.currentRoundDice).sum < 2 ^ 63 →
        wrapInt (scoringDice player.currentRoundDice).sum
          = (scoringDice player.currentRoundDice).sum) := by
  obtain ⟨r, hr, hidx⟩ := roundSlot roundIndex h1 h2
  refine ⟨r, hr, ?_, fun ha hb => wrapInt_of_fits _ ha hb⟩
  unfold tallyRoundScore
  rw [hidx, tallyDice_eq]

/-- Witness for C1: the dice `[4, 4, 3, 6, 2]` tallied for round 1 store
`3 + 6 + 2 = 11` in `roundScores[0]`, not 19. -/
theorem tallyRoundScore_excludes_zero_number_witness :
    ∃ tallied : Player,
      tallyRoundScore (fixturePlayer [4, 4, 3, 6, 2] [true, true, true, true, true]) 1
        = Res.ok tallied ∧
      tallied.roundScores 0 = 11 ∧ tallied.roundScores 0 ≠ 19 := by
  obtain ⟨r, hr, hres, -⟩ := tallyRoundScore_excludes_zero_number
    (fixturePlayer [4, 4, 3, 6, 2] [true, true, true, true, true]) 1 (by decide) (by decide)
  have hr0 : r = 0 := by
    apply Fin.ext
    have : ((r : Nat) : Int) = 0 := by simpa using hr
    simpa using this
  subst hr0
  refine ⟨_, hres, ?_⟩
  have hsum : wrapInt (scoringDice
      (fixturePlayer [4, 4, 3, 6, 2] [true, true, true, true, true]).currentRoundDice).sum
      = 11 := by decide
  simp only [Function.update_same, hsum]
  decide

/-- The winner loop shared by `calculateRoundWinner` and `calculateGameWinner`. -/
theorem lowest_fold (s : Fin 4 → Int) (M : Int) (h : ∀ i, s i ≤ M) :
    ∃ w : Fin 4,
      ((List.finRange 4).foldl
        (fun (acc : Int × Int) (i : Fin 4) =>
          if s i < acc.2 then (((i : Nat) : Int), s i) else acc) (0, M)).1 = ((w : Nat) : Int) ∧
      (∀ j, s w ≤ s j) ∧ ∀ j, s j = s w → w ≤ j := by
  have h0 := h 0
  have h1 := h 1
  have h2 := h 2
  have h3 := h 3
  rw [finRange_four]
  simp only [List.foldl]
  have key : ∀ (w : Fin 4) (x : Int), x = ((w : Nat) : Int) →
      ((∀ j, s w ≤ s j) ∧ ∀ j, s j = s w → w ≤ j) →
      ∃ w : Fin 4, x = ((w : Nat) : Int) ∧ (∀ j, s w ≤ s j) ∧ ∀ j, s j = s w → w ≤ j :=
    fun w x hx hw => ⟨w, hx, hw⟩
  split_ifs <;>
  first
  | (refine key 0 _ rfl ⟨?_, ?_⟩ <;> intro j <;> fin_cases j <;> simp <;> omega)
  | (refine key 1 _ rfl ⟨?_, ?_⟩ <;> intro j <;> fin_cases j <;> simp <;> omega)
  | (refine key 2 _ rfl ⟨?_, ?_⟩ <;> intro j <;> fin_cases j <;> simp <;> omega)
  | (refine key 3 _ rfl ⟨?_, ?_⟩ <;> intro j <;> fin_cases j <;> simp <;> omega)

/-- C2. For every game whose `roundIndex` names a round `r` and in which
every player's score for that round lies between 0 and `MaxRoundScore`,
`calculateRoundWinner` returns, changes only `roundWinner[roundIndex]`, and
records there the lowest player index whose round score equals the minimum
round score over all players. -/
theorem calculateRoundWinner_lowest_index_of_minimum (game : Game) (r : Fin AmountOfRounds)
    (hr : game.roundIndex = ((r : Nat) : Int))
    (hs : ∀ i, 0 ≤ (game.players i).roundScores r ∧
      (game.players i).roundScores r ≤ MaxRoundScore) :
    ∃ w : Fin AmountOfPlayers,
      calculateRoundWinner game
        = Res.ok { game with
            roundWinner := Function.update game.roundWinner r ((w : Nat) : Int) } ∧
      (∀ j, (game.players w).roundScores r ≤ (game.players j).roundScores r) ∧
      ∀ j, (game.players j).roundScores r = (game.players w).roundScores r → w ≤ j := by
  obtain ⟨w, hw, hmin, hfirst⟩ :=
    lowest_fold (fun i => (game.players i).roundScores r) MaxRoundScore (fun i => (hs i).2)
  refine ⟨w, ?_, hmin, hfirst⟩
  unfold calculateRoundWinner
  rw [(toIndex_eq_some AmountOfRounds game.roundIndex r).2 hr]
  simp only
  have hstep : roundWinnerStep game r
      = fun (acc : Int × Int) (i : Fin 4) =>
          if (game.players i).roundScores r < acc.2 then
            (((i : Nat) : Int), (game.players i).roundScores r) else acc := by
    funext acc i
    rfl
  rw [hstep, hw]

/-- Witness for C2: in round index 1 the scores `[12, 12, 9, 15]` make
player 2 the round winner, and the scores `[10, 10, 15, 20]` player 0. -/
theorem calculateRoundWinner_lowest_index_of_minimum_witness :
    (∃ g, calculateRoundWinner
        (fixtureGame 1 [[0, 12, 0, 0], [0, 12, 0, 0], [0, 9, 0, 0], [0, 15, 0, 0]]) = Res.ok g ∧
      g.roundWinner 1 = 2) ∧
    (∃ g, calculateRoundWinner
        (fixtureGame 1 [[0, 10, 0, 0], [0, 10, 0, 0], [0, 15, 0, 0], [0, 20, 0, 0]]) = Res.ok g ∧
      g.roundWinner 1 = 0) := by
  constructor
  · obtain ⟨w, hw, hmin, -⟩ := calculateRoundWinner_lowest_index_of_minimum
      (fixtureGame 1 [[0, 12, 0, 0], [0, 12, 0, 0], [0, 9, 0, 0], [0, 15, 0, 0]]) 1
      (by decide) (by decide)
    refine ⟨_, hw, ?_⟩
    have key : ∀ v : Fin AmountOfPlayers,
        ((fixtureGame 1 [[0, 12, 0, 0], [0, 12, 0, 0], [0, 9, 0, 0], [0, 15, 0, 0]]).players
            v).roundScores 1 ≤
          ((fixtureGame 1 [[0, 12, 0, 0], [0, 12, 0, 0], [0, 9, 0, 0], [0, 15, 0, 0]]).players
            2).roundScores 1 → v = 2 := by
      decide
    have hw2 : w = 2 := key w (hmin 2)
    subst hw2
    simp
  · obtain ⟨w, hw, hmin, hfirst⟩ := calculateRoundWinner_lowest_index_of_minimum
      (fixtureGame 1 [[0, 10, 0, 0], [0, 10, 0, 0], [0, 15, 0, 0], [0, 20, 0, 0]]) 1
      (by decide) (by decide)
    refine ⟨_, hw, ?_⟩
    have key : ∀ v : Fin AmountOfPlayers,
        (((fixtureGame 1 [[0, 10, 0, 0], [0, 10, 0, 0], [0, 15, 0, 0], [0, 20, 0, 0]]).players
            0).roundScores 1 =
          ((fixtureGame 1 [[0, 10, 0, 0], [0, 10, 0, 0], [0, 15, 0, 0], [0, 20, 0, 0]]).players
            v).roundScores 1 → v ≤ 0) →
        ((fixtureGame 1 [[0, 10, 0, 0], [0, 10, 0, 0], [0, 15, 0, 0], [0, 20, 0, 0]]).players
            v).roundScores 1 ≤
          ((fixtureGame 1 [[0, 10, 0, 0], [0, 10, 0, 0], [0, 15, 0, 0], [0, 20, 0, 0]]).players
            0).roundScores 1 → v = 0 := by
      decide
    have hw0 : w = 0 := key w (hfirst 0) (hmin 0)
    subst hw0
    simp

/-- C3. For every game in which every player's total, as computed by
`calcuateTotalGameScore`, lies between 0 and `MaxPossibleScore`,
`calculateGameWinner` changes only `gameWinner` and sets it to the lowest
player index whose total equals the minimum total over all players. -/
theorem calculateGameWinner_lowest_index_of_minimum (game : Game)
    (hs : ∀ i, 0 ≤ calcuateTotalGameScore (game.players i) ∧
      calcuateTotalGameScore (game.players i) ≤ MaxPossibleScore) :
    ∃ w : Fin AmountOfPlayers,
      calculateGameWinner game = { game with gameWinner := ((w : Nat) : Int) } ∧
      (∀ j, calcuateTotalGameScore (game.players w) ≤ calcuateTotalGameScore (game.players j)) ∧
      ∀ j, calcuateTotalGameScore (game.players j) = calcuateTotalGameScore (game.players w) →
        w ≤ j := by
  obtain ⟨w, hw, hmin, hfirst⟩ :=
    lowest_fold (fun i => calcuateTotalGameScore (game.players i)) MaxPossibleScore
      (fun i => (hs i).2)
  refine ⟨w, ?_, hmin, hfirst⟩
  unfold calculateGameWinner
  have hstep : gameWinnerStep game
      = fun (acc : Int × Int) (i : Fin 4) =>
          if calcuateTotalGameScore (game.players i) < acc.2 then
            (((i : Nat) : Int), calcuateTotalGameScore (game.players i)) else acc := by
    funext acc i
    rfl
  rw [hstep, hw]

/-- Witness for C3: after four rounds the totals `[40, 38, 38, 50]` make
player 1 the game winner. -/
theorem calculateGameWinner_lowest_index_of_minimum_witness :
    (List.finRange AmountOfPlayers).map (fun i => calcuateTotalGameScore
        ((fixtureGame 4 [[10, 10, 10, 10], [8, 10, 12, 8], [20, 0, 9, 9], [15, 15, 10, 10]]).players
          i)) = [40, 38, 38, 50] ∧
    (calculateGameWinner
      (fixtureGame 4 [[10, 10, 10, 10], [8, 10, 12, 8], [20, 0, 9, 9], [15, 15, 10, 10]])).gameWinner
      = 1 := by
  refine ⟨by decide, ?_⟩
  obtain ⟨w, hw, hmin, hfirst⟩ := calculateGameWinner_lowest_index_of_minimum
    (fixtureGame 4 [[10, 10, 10, 10], [8, 10, 12, 8], [20, 0, 9, 9], [15, 15, 10, 10]])
    (by decide)
  have key : ∀ v : Fin AmountOfPlayers,
      (calcuateTotalGameScore
          ((fixtureGame 4 [[10, 10, 10, 10], [8, 10, 12, 8], [20, 0, 9, 9],
            [15, 15, 10, 10]]).players 1) =
        calcuateTotalGameScore
          ((fixtureGame 4 [[10, 10, 10, 10], [8, 10, 12, 8], [20, 0, 9, 9],
            [15, 15, 10, 10]]).players v) → v ≤ 1) →
      calcuateTotalGameScore
          ((fixtureGame 4 [[10, 10, 10, 10], [8, 10, 12, 8], [20, 0, 9, 9],
            [15, 15, 10, 10]]).players v) ≤
        calcuateTotalGameScore
          ((fixtureGame 4 [[10, 10, 10, 10], [8, 10, 12, 8], [20, 0, 9, 9],
            [15, 15, 10, 10]]).players 1) → v = 1 := by
    decide
  have hw1 : w = 1 := key w (hfirst 1) (hmin 1)
  subst hw1
  rw [hw]
  rfl

/-! ## Play order -/

theorem unsetOrder_apply (i : Fin AmountOfPlayers) : unsetOrder i = -1 := by
  revert i
  decide

theorem contains_eq_false (o : Fin AmountOfPlayers → Int) (x : Int) :
    contains o x = false ↔ ∀ i, o i ≠ x := by
  simp [contains]

theorem goSub_one_of_player_roll (r : Int) (h : 1 ≤ r ∧ r ≤ 4) :
    goSub r 1 = r - 1 := by
  unfold goSub
  apply wrapInt_of_fits <;> omega

theorem pickNext_ok (o : Fin AmountOfPlayers → Int) :
    ∀ (rolls : List Int) (x y : Int) (rest : List Int),
      pickNext o x rolls = Res.ok (y, rest) →
      contains o y = false ∧ (y = x ∨ ∃ r ∈ rolls, y = goSub r 1) ∧ ∀ r ∈ rest, r ∈ rolls := by
  intro rolls
  induction rolls with
  | nil =>
    intro x y rest h
    unfold pickNext at h
    split_ifs at h with hc
    simp only [Res.ok.injEq, Prod.mk.injEq] at h
    obtain ⟨rfl, rfl⟩ := h
    simp [hc]
  | cons r rs ih =>
    intro x y rest h
    unfold pickNext at h
    split_ifs at h with hc
    · obtain ⟨h1, h2, h3⟩ := ih _ _ _ h
      refine ⟨h1, Or.inr ?_, fun q hq => List.mem_cons_of_mem _ (h3 q hq)⟩
      rcases h2 with h2 | ⟨q, hq, h2⟩
      · exact ⟨r, List.mem_cons_self _ _, h2⟩
      · exact ⟨q, List.mem_cons_of_mem _ hq, h2⟩
    · simp only [Res.ok.injEq, Prod.mk.injEq] at h
      obtain ⟨rfl, rfl⟩ := h
      simp [hc]

theorem pickStarter_ok (game : Game) :
    ∀ (rolls : List Int) (x : Int) (s : Fin AmountOfPlayers) (rest : List Int),
      pickStarter game x rolls = Res.ok (s, rest) →
      game.playerHasStarted s = false ∧ ∀ r ∈ rest, r ∈ rolls := by
  intro rolls
  induction rolls with
  | nil =>
    intro x s rest h
    unfold pickStarter at h
    cases hi : toIndex AmountOfPlayers x with
    | none => simp [hi] at h
    | some i =>
      simp only [hi] at h
      split_ifs at h with hc
      simp only [Res.ok.injEq, Prod.mk.injEq] at h
      obtain ⟨rfl, rfl⟩ := h
      simpa using hc
  | cons r rs ih =>
    intro x s rest h
    unfold pickStarter at h
    cases hi : toIndex AmountOfPlayers x with
    | none => simp [hi] at h
    | some i =>
      simp only [hi] at h
      split_ifs at h with hc
      · obtain ⟨h1, h3⟩ := ih _ _ _ h
        exact ⟨h1, fun q hq => List.mem_cons_of_mem _ (h3 q hq)⟩
      · simp only [Res.ok.injEq, Prod.mk.injEq] at h
        obtain ⟨rfl, rfl⟩ := h
        exact ⟨by simpa using hc, fun q hq => hq⟩

theorem fillOrder_cons_ok (i : Fin AmountOfPlayers) (is : List (Fin AmountOfPlayers))
    (o : Fin AmountOfPlayers → Int) (rolls : List Int)
    (res : (Fin AmountOfPlayers → Int) × List Int)
    (h : fillOrder (i :: is) o rolls = Res.ok res) :
    ∃ (y : Int) (rest : List Int),
      contains o y = false ∧ (∃ r ∈ rolls, y = goSub r 1) ∧ (∀ r ∈ rest, r ∈ rolls) ∧
      fillOrder is (Function.update o i y) rest = Res.ok res := by
  unfold fillOrder at h
  cases rolls with
  | nil => simp [getDieRoll] at h
  | cons r rs =>
    simp only [getDieRoll] at h
    cases hp : pickNext o (goSub r 1) rs with
    | ok v =>
      obtain ⟨y, rest⟩ := v
      simp only [hp] at h
      obtain ⟨h1, h2, h3⟩ := pickNext_ok o rs _ _ _ hp
      refine ⟨y, rest, h1, ?_, fun q hq => List.mem_cons_of_mem _ (h3 q hq), h⟩
      rcases h2 with h2 | ⟨q, hq, h2⟩
      · exact ⟨r, List.mem_cons_self _ _, h2⟩
      · exact ⟨q, List.mem_cons_of_mem _ hq, h2⟩
    | panic => simp [hp] at h
    | blocked => simp [hp] at h
    | timeout => simp [hp] at h

/-- What a returning call of `getRoundPlayerOrder` has done. -/
theorem getRoundPlayerOrder_ok (game : Game) (rolls : List Int)
    (order : Fin AmountOfPlayers → Int) (game2 : Game) (rest : List Int)
    (h : getRoundPlayerOrder game rolls = Res.ok (order, game2, rest)) :
    ∃ (s : Fin AmountOfPlayers) (y1 y2 y3 : Int),
      game.playerHasStarted s = false ∧
      game2 = { game with playerHasStarted := Function.update game.playerHasStarted s true } ∧
      order 0 = ((s : Nat) : Int) ∧ order 1 = y1 ∧ order 2 = y2 ∧ order 3 = y3 ∧
      y1 ≠ ((s : Nat) : Int) ∧ y2 ≠ ((s : Nat) : Int) ∧ y3 ≠ ((s : Nat) : Int) ∧
      y2 ≠ y1 ∧ y3 ≠ y1 ∧ y3 ≠ y2 ∧ y1 ≠ -1 ∧ y2 ≠ -1 ∧ y3 ≠ -1 ∧
      (∃ r ∈ rolls, y1 = goSub r 1) ∧ (∃ r ∈ rolls, y2 = goSub r 1) ∧
      (∃ r ∈ rolls, y3 = goSub r 1) ∧ ∀ r ∈ rest, r ∈ rolls := by
  unfold getRoundPlayerOrder at h
  cases rolls with
  | nil => simp [getDieRoll] at h
  | cons r rs =>
    simp only [getDieRoll] at h
    cases hp : pickStarter game (goSub r 1) rs with
    | panic => simp [hp] at h
    | blocked => simp [hp] at h
    | timeout => simp [hp] at h
    | ok v =>
      obtain ⟨s, rest1⟩ := v
      simp only [hp] at h
      obtain ⟨hs, hsub1⟩ := pickStarter_ok game rs _ _ _ hp
      cases hf : fillOrder [1, 2, 3] (Function.update unsetOrder 0 ((s : Nat) : Int)) rest1 with
      | panic => simp [hf] at h
      | blocked => simp [hf] at h
      | timeout => simp [hf] at h
      | ok v2 =>
        obtain ⟨o, rest4⟩ := v2
        simp only [hf, Res.ok.injEq, Prod.mk.injEq] at h
        obtain ⟨rfl, rfl, rfl⟩ := h
        obtain ⟨y1, rest2, c1, m1, sub2, hf1⟩ := fillOrder_cons_ok _ _ _ _ _ hf
        obtain ⟨y2, rest3, c2, m2, sub3, hf2⟩ := fillOrder_cons_ok _ _ _ _ _ hf1
        obtain ⟨y3, rest5, c3, m3, sub4, hf3⟩ := fillOrder_cons_ok _ _ _ _ _ hf2
        simp only [fillOrder, Res.ok.injEq, Prod.mk.injEq] at hf3
        obtain ⟨rfl, rfl⟩ := hf3
        rw [contains_eq_false] at c1 c2 c3
        have a0 := c1 0
        have a1 := c1 1
        have b0 := c2 0
        have b1 := c2 1
        have b2 := c2 2
        have d0 := c3 0
        have d1 := c3 1
        have d2 := c3 2
        have d3 := c3 3
        simp [Function.update, unsetOrder_apply] at a0 a1 b0 b1 b2 d0 d1 d2 d3
        have up1 : ∀ q ∈ rest1, q ∈ r :: rs := fun q hq => List.mem_cons_of_mem _ (hsub1 q hq)
        have up2 : ∀ q ∈ rest2, q ∈ r :: rs := fun q hq => up1 q (sub2 q hq)
        have up3 : ∀ q ∈ rest3, q ∈ r :: rs := fun q hq => up2 q (sub3 q hq)
        refine ⟨s, y1, y2, y3, hs, rfl, ?_, ?_, ?_, ?_, ?_, ?_, ?_, ?_, ?_, ?_, ?_, ?_, ?_, ?_, ?_, ?_⟩
        · simp [Function.update]
        · simp [Function.update]
        · simp [Function.update]
        · simp [Function.update]
        · exact fun e => a0 e.symm
        · exact fun e => b0 e.symm
        · exact fun e => d0 e.symm
        · exact fun e => b1 e.symm
        · exact fun e => d1 e.symm
        · exact fun e => d2 e.symm
        · exact fun e => a1 e.symm
        · exact fun e => b2 e.symm
        · exact fun e => d3 e.symm
        · obtain ⟨q, hq, e⟩ := m1
          exact ⟨q, up1 q hq, e⟩
        · obtain ⟨q, hq, e⟩ := m2
          exact ⟨q, up2 q hq, e⟩
        · refine ⟨?_, fun q hq => up3 q (sub4 q hq)⟩
          obtain ⟨q, hq, e⟩ := m3
          exact ⟨q, up3 q hq, e⟩

/-- C4. For every game and every stream of die rolls in
`[1, AmountOfPlayers]` on which `getRoundPlayerOrder` returns, the returned
array (of exactly `AmountOfPlayers` entries, by its type) is a permutation of
the player indices: every entry lies in `[0, AmountOfPlayers-1]`, no `-1`
placeholder remains, the entries are pairwise distinct, and every player
index occurs. -/
theorem getRoundPlayerOrder_is_permutation (game : Game) (rolls : List Int)
    (order : Fin AmountOfPlayers → Int) (game2 : Game) (rest : List Int)
    (hrolls : ∀ r ∈ rolls, 1 ≤ r ∧ r ≤ (AmountOfPlayers : Int))
    (h : getRoundPlayerOrder game rolls = Res.ok (order, game2, rest)) :
    (∀ i, 0 ≤ order i ∧ order i ≤ (AmountOfPlayers : Int) - 1) ∧
    (∀ i, order i ≠ -1) ∧
    Function.Injective order ∧
    ∀ k : Fin AmountOfPlayers, ∃ i, order i = ((k : Nat) : Int) := by
  obtain ⟨s, y1, y2, y3, -, -, o0, o1, o2, o3, n1, n2, n3, n4, n5, n6, -, -, -,
    ⟨r1, m1, e1⟩, ⟨r2, m2, e2⟩, ⟨r3, m3, e3⟩, -⟩ :=
    getRoundPlayerOrder_ok game rolls order game2 rest h
  have q1 : 1 ≤ r1 ∧ r1 ≤ 4 := hrolls r1 m1
  have q2 : 1 ≤ r2 ∧ r2 ≤ 4 := hrolls r2 m2
  have q3 : 1 ≤ r3 ∧ r3 ≤ 4 := hrolls r3 m3
  rw [goSub_one_of_player_roll r1 q1] at e1
  rw [goSub_one_of_player_roll r2 q2] at e2
  rw [goSub_one_of_player_roll r3 q3] at e3
  have hlt : (s : Nat) < 4 := s.isLt
  have b0 : 0 ≤ order 0 ∧ order 0 ≤ 3 := by omega
  have b1 : 0 ≤ order 1 ∧ order 1 ≤ 3 := by omega
  have b2 : 0 ≤ order 2 ∧ order 2 ≤ 3 := by omega
  have b3 : 0 ≤ order 3 ∧ order 3 ≤ 3 := by omega
  have d01 : order 0 ≠ order 1 := by
    rw [o0, o1]
    exact fun e => n1 e.symm
  have d02 : order 0 ≠ order 2 := by
    rw [o0, o2]
    exact fun e => n2 e.symm
  have d03 : order 0 ≠ order 3 := by
    rw [o0, o3]
    exact fun e => n3 e.symm
  have d12 : order 1 ≠ order 2 := by
    rw [o1, o2]
    exact fun e => n4 e.symm
  have d13 : order 1 ≠ order 3 := by
    rw [o1, o3]
    exact fun e => n5 e.symm
  have d23 : order 2 ≠ order 3 := by
    rw [o2, o3]
    exact fun e => n6 e.symm
  clear o0 o1 o2 o3 n1 n2 n3 n4 n5 n6 e1 e2 e3 q1 q2 q3 m1 m2 m3 hlt
  have slots : ∀ i : Fin AmountOfPlayers, i = 0 ∨ i = 1 ∨ i = 2 ∨ i = 3 := by decide
  refine ⟨?_, ?_, ?_, ?_⟩
  · intro i
    show 0 ≤ order i ∧ order i ≤ 4 - 1
    rcases slots i with rfl | rfl | rfl | rfl <;> omega
  · intro i
    rcases slots i with rfl | rfl | rfl | rfl <;> omega
  · intro i j hij
    rcases slots i with rfl | rfl | rfl | rfl <;>
      rcases slots j with rfl | rfl | rfl | rfl <;>
      first
      | rfl
      | exact absurd hij d01
      | exact absurd hij d02
      | exact absurd hij d03
      | exact absurd hij d12
      | exact absurd hij d13
      | exact absurd hij d23
      | exact absurd hij.symm d01
      | exact absurd hij.symm d02
      | exact absurd hij.symm d03
      | exact absurd hij.symm d12
      | exact absurd hij.symm d13
      | exact absurd hij.symm d23
  · intro k
    have hk : (k : Nat) < 4 := k.isLt
    have : order 0 = ((k : Nat) : Int) ∨ order 1 = ((k : Nat) : Int) ∨
        order 2 = ((k : Nat) : Int) ∨ order 3 = ((k : Nat) : Int) := by omega
    rcases this with e | e | e | e
    · exact ⟨0, e⟩
    · exact ⟨1, e⟩
    · exact ⟨2, e⟩
    · exact ⟨3, e⟩

/-- Witness for C4: in a fresh game the rolls `2, 2, 4, 1, 4, 3` give the
order `[1, 3, 0, 2]` (the second `2` and the second `4` are re-drawn). -/
theorem getRoundPlayerOrder_is_permutation_witness :
    ∃ order game2 rest,
      getRoundPlayerOrder (fixtureGame 0 []) [2, 2, 4, 1, 4, 3] = Res.ok (order, game2, rest) ∧
      (List.finRange AmountOfPlayers).map order = [1, 3, 0, 2] ∧
      Function.Injective order ∧
      ∀ k : Fin AmountOfPlayers, ∃ i, order i = ((k : Nat) : Int) := by
  refine ⟨_, _, _, rfl, by decide, ?_, ?_⟩
  · exact (getRoundPlayerOrder_is_permutation (fixtureGame 0 []) [2, 2, 4, 1, 4, 3] _ _ _
      (by decide) rfl).2.2.1
  · exact (getRoundPlayerOrder_is_permutation (fixtureGame 0 []) [2, 2, 4, 1, 4, 3] _ _ _
      (by decide) rfl).2.2.2

theorem roundOrders_starters (streams : List (List Int)) :
    ∀ (game : Game) (log : List OrderCall) (game2 : Game),
      roundOrders streams game = Res.ok (log, game2) →
      log.length = streams.length ∧
      (∀ c ∈ log, ∃ s : Fin AmountOfPlayers, c.order 0 = ((s : Nat) : Int) ∧
        c.before.playerHasStarted s = false ∧ game.playerHasStarted s = false) ∧
      log.Pairwise (fun a b => a.order 0 ≠ b.order 0) := by
  induction streams with
  | nil =>
    intro game log game2 h
    simp only [roundOrders, Res.ok.injEq, Prod.mk.injEq] at h
    obtain ⟨rfl, -⟩ := h
    simp
  | cons rolls streams ih =>
    intro game log game3 h
    unfold roundOrders at h
    cases hg : getRoundPlayerOrder game rolls with
    | panic => simp [hg] at h
    | blocked => simp [hg] at h
    | timeout => simp [hg] at h
    | ok v =>
      obtain ⟨order, game2, rest1⟩ := v
      simp only [hg] at h
      cases hrec : roundOrders streams game2 with
      | panic => simp [hrec] at h
      | blocked => simp [hrec] at h
      | timeout => simp [hrec] at h
      | ok v2 =>
        obtain ⟨log2, game4⟩ := v2
        simp only [hrec, Res.ok.injEq, Prod.mk.injEq] at h
        obtain ⟨rfl, rfl⟩ := h
        obtain ⟨hlen, hall, hpw⟩ := ih _ _ _ hrec
        obtain ⟨s, y1, y2, y3, hs, hg2, o0, -⟩ := getRoundPlayerOrder_ok _ _ _ _ _ hg
        have hflag : ∀ t : Fin AmountOfPlayers, game2.playerHasStarted t = false →
            game.playerHasStarted t = false ∧ t ≠ s := by
          intro t ht
          rw [hg2] at ht
          by_cases hts : t = s
          · subst hts
            simp at ht
          · simp only [Function.update_noteq hts] at ht
            exact ⟨ht, hts⟩
        refine ⟨by simp [hlen], ?_, ?_⟩
        · intro c hc
          rcases List.mem_cons.1 hc with rfl | hc
          · exact ⟨s, o0, hs, hs⟩
          · obtain ⟨t, ht0, ht1, ht2⟩ := hall c hc
            exact ⟨t, ht0, ht1, (hflag t ht2).1⟩
        · refine List.Pairwise.cons ?_ hpw
          intro c hc
          obtain ⟨t, ht0, -, ht2⟩ := hall c hc
          have hne := (hflag t ht2).2
          simp only [o0, ht0]
          intro e
          apply hne
          apply Fin.ext
          omega

/-- C5. For every run of successive `getRoundPlayerOrder` calls that all
return, under any die streams and from any game (in particular one in which
no player is marked as having started): the log holds one entry per call, the
first entry of each returned order is a player whose `playerHasStarted` flag
was false when that call was made, and the first entries of the orders are
pairwise distinct, so no player starts a round twice. -/
theorem round_starters_pairwise_distinct (streams : List (List Int)) (game : Game)
    (log : List OrderCall) (game2 : Game)
    (h : roundOrders streams game = Res.ok (log, game2)) :
    log.length = streams.length ∧
    (∀ c ∈ log, ∃ s : Fin AmountOfPlayers, c.order 0 = ((s : Nat) : Int) ∧
      c.before.playerHasStarted s = false) ∧
    log.Pairwise (fun a b => a.order 0 ≠ b.order 0) := by
  obtain ⟨hlen, hall, hpw⟩ := roundOrders_starters streams game log game2 h
  refine ⟨hlen, ?_, hpw⟩
  intro c hc
  obtain ⟨s, a, b, -⟩ := hall c hc
  exact ⟨s, a, b⟩

/-- Witness for C5: the four rounds of a game, from a fresh game, with a
re-drawn starter in the second round; the starters are `0, 1, 2, 3`. -/
theorem round_starters_pairwise_distinct_witness :
    ∃ log game2,
      roundOrders [[1, 2, 3, 4], [1, 2, 1, 3, 4], [3, 1, 2, 4], [4, 1, 2, 3]] (fixtureGame 0 [])
        = Res.ok (log, game2) ∧
      log.map (fun c => c.order 0) = [0, 1, 2, 3] ∧
      log.Pairwise (fun a b => a.order 0 ≠ b.order 0) := by
  refine ⟨_, _, rfl, by decide, ?_⟩
  exact (round_starters_pairwise_distinct
    [[1, 2, 3, 4], [1, 2, 1, 3, 4], [3, 1, 2, 4], [4, 1, 2, 3]] (fixtureGame 0 []) _ _ rfl).2.2

/-! ## Kept flags -/

theorem five_slots : ∀ i : Fin AmountOfDice, i = 0 ∨ i = 1 ∨ i = 2 ∨ i = 3 ∨ i = 4 := by
  decide

theorem markAllDiceAsKept_eq (p : Player) :
    markAllDiceAsKept p = { p with keptDiceRoll := fun _ => true } := by
  unfold markAllDiceAsKept
  congr 1
  funext i
  rw [finRange_five]
  rcases five_slots i with rfl | rfl | rfl | rfl | rfl <;> simp [Function.update]

theorem clearRound_eq (p : Player) :
    clearRound p = { p with keptDiceRoll := fun _ => false, currentRoundDice := fun _ => 0 } := by
  unfold clearRound
  congr 1
  · funext i
    rw [finRange_five]
    rcases five_slots i with rfl | rfl | rfl | rfl | rfl <;> simp [Function.update]
  · funext i
    rw [finRange_five]
    rcases five_slots i with rfl | rfl | rfl | rfl | rfl <;> simp [Function.update]

theorem hasFinishedTurn_iff (p : Player) :
    hasFinishedTurn p = true ↔ ∀ i, p.keptDiceRoll i = true := by
  simp [hasFinishedTurn]

theorem unkeptCount_le (p : Player) : unkeptCount p ≤ AmountOfDice := by
  unfold unkeptCount
  have h := List.length_filter_le (fun i => !p.keptDiceRoll i) (List.finRange AmountOfDice)
  simpa using h

theorem getUnkeptDiceRolls_eq (p : Player) :
    getUnkeptDiceRolls p = ((unkeptCount p : Nat) : Int) := by
  have w1 : goAdd 0 1 = 1 := by decide
  have w2 : goAdd 1 1 = 2 := by decide
  have w3 : goAdd 2 1 = 3 := by decide
  have w4 : goAdd 3 1 = 4 := by decide
  have w5 : goAdd 4 1 = 5 := by decide
  unfold getUnkeptDiceRolls unkeptCount
  rw [finRange_five]
  cases h0 : p.keptDiceRoll 0 <;> cases h1 : p.keptDiceRoll 1 <;>
    cases h2 : p.keptDiceRoll 2 <;> cases h3 : p.keptDiceRoll 3 <;>
    cases h4 : p.keptDiceRoll 4 <;>
    simp [List.filter, h0, h1, h2, h3, h4, w1, w2, w3, w4, w5]

theorem unkeptCount_eq_zero_iff (p : Player) :
    unkeptCount p = 0 ↔ hasFinishedTurn p = true := by
  rw [hasFinishedTurn_iff]
  unfold unkeptCount
  simp [List.filter_eq_nil_iff]

theorem unkeptCount_mark (p : Player) (i : Fin AmountOfDice) (h : p.keptDiceRoll i = false) :
    unkeptCount { p with keptDiceRoll := Function.update p.keptDiceRoll i true } + 1
      = unkeptCount p := by
  unfold unkeptCount
  rw [finRange_five]
  rcases five_slots i with rfl | rfl | rfl | rfl | rfl <;>
    cases h0 : p.keptDiceRoll 0 <;> cases h1 : p.keptDiceRoll 1 <;>
    cases h2 : p.keptDiceRoll 2 <;> cases h3 : p.keptDiceRoll 3 <;>
    cases h4 : p.keptDiceRoll 4 <;>
    simp_all [List.filter, Function.update]

/-! ## Choosing the dice to keep -/

theorem isValidIndexChoice_iff (c lo hi : Int) :
    isValidIndexChoice c lo hi = true ↔ lo ≤ c ∧ c ≤ hi := by
  unfold isValidIndexChoice
  split_ifs with h
  · simp only [true_iff]
    omega
  · simp only [Bool.false_eq_true, false_iff]
    omega

/-- A returning `getValidatedChoiceIndex` hands back the number of an unkept
die and has read at least one line. -/
theorem getValidatedChoiceIndex_ok (p : Player) :
    ∀ (inputs : List Line) (num : Int) (rest : List Line),
      getValidatedChoiceIndex p inputs = Res.ok (num, rest) →
      1 ≤ num ∧ num ≤ 5 ∧ rest.length < inputs.length ∧
      ∃ i : Fin AmountOfDice, toIndex AmountOfDice (goSub num 1) = some i ∧
        ((i : Nat) : Int) = num - 1 ∧ p.keptDiceRoll i = false := by
  intro inputs
  induction inputs with
  | nil =>
    intro num rest h
    simp [getValidatedChoiceIndex] at h
  | cons input tl ih =>
    intro num rest h
    have step : ∀ num rest, getValidatedChoiceIndex p tl = Res.ok (num, rest) →
        1 ≤ num ∧ num ≤ 5 ∧ rest.length < (input :: tl).length ∧
        ∃ i : Fin AmountOfDice, toIndex AmountOfDice (goSub num 1) = some i ∧
          ((i : Nat) : Int) = num - 1 ∧ p.keptDiceRoll i = false := by
      intro num rest h
      obtain ⟨a, b, c, d⟩ := ih num rest h
      exact ⟨a, b, by simp only [List.length_cons]; omega, d⟩
    unfold getValidatedChoiceIndex at h
    cases hb : input[byteSize - 1]? with
    | none => simp [hb] at h
    | some b =>
      simp only [hb] at h
      cases ha : atoi (runeString b) with
      | none =>
        simp only [ha] at h
        exact step _ _ h
      | some k =>
        simp only [ha] at h
        split_ifs at h with hv
        · cases hi : toIndex AmountOfDice (goSub k 1) with
          | none => simp [hi] at h
          | some i =>
            simp only [hi] at h
            split_ifs at h with hk
            · simp only [Res.ok.injEq, Prod.mk.injEq] at h
              obtain ⟨rfl, rfl⟩ := h
              rw [isValidIndexChoice_iff] at hv
              have hv2 : 1 ≤ k ∧ k ≤ 5 := hv
              have hw : goSub k 1 = k - 1 := by
                unfold goSub
                apply wrapInt_of_fits <;> omega
              have hik := (toIndex_eq_some _ _ _).1 hi
              refine ⟨hv2.1, hv2.2, by simp, i, hi, ?_, by simpa using hk⟩
              omega
            · exact step _ _ h
        · exact step _ _ h

/-- A returning `exhaustLoop n` has kept exactly `n` more dice and has read
at least `n` lines; dice values, scores and name are untouched. -/
theorem exhaustLoop_ok (n : Nat) :
    ∀ (p : Player) (inputs : List Line) (p2 : Player) (rest : List Line),
      exhaustLoop n p inputs = Res.ok (p2, rest) →
      p2.currentRoundDice = p.currentRoundDice ∧ p2.roundScores = p.roundScores ∧
      p2.playerName = p.playerName ∧
      (∀ i, p.keptDiceRoll i = true → p2.keptDiceRoll i = true) ∧
      unkeptCount p2 + n = unkeptCount p ∧ rest.length + n ≤ inputs.length := by
  induction n with
  | zero =>
    intro p inputs p2 rest h
    simp only [exhaustLoop, Res.ok.injEq, Prod.mk.injEq] at h
    obtain ⟨rfl, rfl⟩ := h
    simp
  | succ n ih =>
    intro p inputs p2 rest h
    unfold exhaustLoop at h
    cases hg : getValidatedChoiceIndex p inputs with
    | panic => simp [hg] at h
    | blocked => simp [hg] at h
    | timeout => simp [hg] at h
    | ok v =>
      obtain ⟨num, rest1⟩ := v
      simp only [hg] at h
      obtain ⟨-, -, hlen, i, hi, -, hk⟩ := getValidatedChoiceIndex_ok p inputs num rest1 hg
      simp only [hi] at h
      obtain ⟨a, b, c, d, e, f⟩ := ih _ _ _ _ h
      have hm := unkeptCount_mark p i hk
      refine ⟨a, b, c, ?_, by omega, by omega⟩
      intro j hj
      apply d
      by_cases hji : j = i
      · subst hji
        simp
      · simpa [Function.update_noteq hji] using hj

/-- Asking for more dice than are unkept never returns. -/
theorem exhaustLoop_overcount (n : Nat) (p : Player) (inputs : List Line)
    (h : unkeptCount p < n) (res : Player × List Line) :
    exhaustLoop n p inputs ≠ Res.ok res := by
  intro hok
  obtain ⟨p2, rest⟩ := res
  obtain ⟨-, -, -, -, e, -⟩ := exhaustLoop_ok n p inputs p2 rest hok
  omega

theorem keepCountChoice_ok (sim : Bool) (inputs : List Line) (choice : List Nat)
    (rest : List Line) (h : keepCountChoice sim inputs = Res.ok (choice, rest)) :
    (sim = true ∧ choice = [53] ∧ rest = inputs) ∨
    (sim = false ∧ rest = inputs.tail ∧ rest.length < inputs.length) := by
  unfold keepCountChoice at h
  cases sim with
  | true =>
    simp only [if_true, Res.ok.injEq, Prod.mk.injEq] at h
    exact Or.inl ⟨rfl, h.1.symm, h.2.symm⟩
  | false =>
    simp only [Bool.false_eq_true, if_false] at h
    unfold getUserChoice at h
    cases inputs with
    | nil => simp at h
    | cons input tl =>
      simp only at h
      cases hb : input[byteSize - 1]? with
      | none => simp [hb] at h
      | some b =>
        simp only [hb, Res.ok.injEq, Prod.mk.injEq] at h
        exact Or.inr ⟨rfl, by simp [h.2], by simp [← h.2]⟩

theorem atoi_five : atoi [53] = some 5 := by decide

/-- Every way in which `chooseKeptDice` can return. -/
theorem chooseKeptDice_ok (sim : Bool) (p : Player) (inputs : List Line) (p2 : Player)
    (rest : List Line) (h : chooseKeptDice sim p inputs = Res.ok (p2, rest)) :
    p2.currentRoundDice = p.currentRoundDice ∧ p2.roundScores = p.roundScores ∧
    p2.playerName = p.playerName ∧
    (∀ i, p.keptDiceRoll i = true → p2.keptDiceRoll i = true) ∧
    ((hasFinishedTurn p = true ∧ p2 = p ∧ rest = inputs) ∨
     (hasFinishedTurn p = false ∧ keepCountRejected sim p inputs = true ∧ sim = false ∧
        p2 = p ∧ rest = inputs.tail ∧ rest.length < inputs.length) ∨
     (hasFinishedTurn p = false ∧ keepCountRejected sim p inputs = false ∧
        unkeptCount p2 < unkeptCount p ∧
        (hasFinishedTurn p2 = true ∨ rest.length < inputs.length))) := by
  have hmark := markAllDiceAsKept_eq p
  have hfinmark : hasFinishedTurn (markAllDiceAsKept p) = true := by
    rw [hasFinishedTurn_iff, hmark]
    intro i
    rfl
  have hzero : unkeptCount (markAllDiceAsKept p) = 0 :=
    (unkeptCount_eq_zero_iff _).2 hfinmark
  unfold chooseKeptDice at h
  unfold keepCountRejected
  cases hf : hasFinishedTurn p with
  | true =>
    simp only [hf, if_true, Res.ok.injEq, Prod.mk.injEq] at h
    obtain ⟨rfl, rfl⟩ := h
    simp
  | false =>
    have hpos : unkeptCount p ≠ 0 := by
      intro h0
      rw [unkeptCount_eq_zero_iff, hf] at h0
      exact Bool.noConfusion h0
    simp only [hf, Bool.false_eq_true, if_false] at h ⊢
    by_cases hone : getUnkeptDiceRolls p = 1
    · simp only [hone, if_true, Res.ok.injEq, Prod.mk.injEq] at h ⊢
      obtain ⟨rfl, rfl⟩ := h
      refine ⟨by rw [hmark], by rw [hmark], by rw [hmark], ?_, ?_⟩
      · intro i _
        rw [hmark]
      · right
        right
        exact ⟨trivial, trivial, by omega, Or.inl hfinmark⟩
    · simp only [hone, if_false] at h ⊢
      cases hc : keepCountChoice sim inputs with
      | panic => simp [hc] at h
      | blocked => simp [hc] at h
      | timeout => simp [hc] at h
      | ok v =>
        obtain ⟨choice, rest1⟩ := v
        simp only [hc] at h ⊢
        have hkc := keepCountChoice_ok sim inputs choice rest1 hc
        cases ha : atoi choice with
        | none =>
          simp only [ha, Res.ok.injEq, Prod.mk.injEq] at h ⊢
          obtain ⟨rfl, rfl⟩ := h
          rcases hkc with ⟨-, rfl, -⟩ | ⟨hs, ht, hl⟩
          · rw [atoi_five] at ha
            exact Option.noConfusion ha
          · exact ⟨rfl, rfl, rfl, fun i hi => hi, Or.inr (Or.inl ⟨trivial, trivial, hs, rfl, ht, hl⟩)⟩
        | some k =>
          simp only [ha] at h ⊢
          by_cases hv : isValidIndexChoice k 1 5 = true
          · have hv' : isValidIndexChoice k 1 (AmountOfDice : Int) = true := hv
            simp only [hv', if_true] at h ⊢
            have hkr := (isValidIndexChoice_iff k 1 5).1 hv
            have hlen : rest1.length ≤ inputs.length := by
              rcases hkc with ⟨-, -, rfl⟩ | ⟨-, -, hl⟩
              · exact le_refl _
              · omega
            split_ifs at h with hku
            · simp only [Res.ok.injEq, Prod.mk.injEq] at h
              obtain ⟨rfl, rfl⟩ := h
              refine ⟨by rw [hmark], by rw [hmark], by rw [hmark], ?_, ?_⟩
              · intro i _
                rw [hmark]
              · right
                right
                exact ⟨trivial, by simp, by omega, Or.inl hfinmark⟩
            · unfold exhaustUntilAllChosenDiceKept at h
              obtain ⟨a, b, c, d, e, f⟩ := exhaustLoop_ok _ _ _ _ _ h
              have hkn : 1 ≤ k.toNat := by omega
              refine ⟨a, b, c, d, Or.inr (Or.inr ⟨trivial, by simp, by omega, Or.inr (by omega)⟩)⟩
          · have hv' : ¬ isValidIndexChoice k 1 (AmountOfDice : Int) = true := hv
            simp only [hv', if_false, Res.ok.injEq, Prod.mk.injEq] at h ⊢
            obtain ⟨rfl, rfl⟩ := h
            rcases hkc with ⟨-, rfl, -⟩ | ⟨hs, ht, hl⟩
            · rw [atoi_five] at ha
              simp only [Option.some.injEq] at ha
              subst ha
              exact absurd (by decide) hv
            · refine ⟨rfl, rfl, rfl, fun i hi => hi, Or.inr (Or.inl ⟨trivial, ?_, hs, rfl, ht, hl⟩)⟩
              simp [hv]

theorem not_finished_of_unkept (p : Player) (h : unkeptCount p ≠ 0) :
    hasFinishedTurn p = false := by
  cases hf : hasFinishedTurn p with
  | false => rfl
  | true => exact absurd ((unkeptCount_eq_zero_iff p).2 hf) h

theorem byteSize_eq : byteSize = 1 := by decide

/-- C9. Single-die auto-keep: for every player with exactly one unkept die,
and whether or not `SimulatePlay` is set, `chooseKeptDice` returns with every
kept flag true, has read no input (the lines are handed back as they were),
and has changed nothing else: dice values, scores and name are the same. -/
theorem chooseKeptDice_keeps_single_die (simulatePlay : Bool) (player : Player)
    (inputs : List Line) (h : unkeptCount player = 1) :
    chooseKeptDice simulatePlay player inputs
      = Res.ok ({ player with keptDiceRoll := fun _ => true }, inputs) := by
  unfold chooseKeptDice
  rw [not_finished_of_unkept player (by omega), getUnkeptDiceRolls_eq, h, markAllDiceAsKept_eq]
  simp

/-- Witness for C9: with only die 4 unkept, the call keeps it and leaves the
pending line `x` unread. -/
theorem chooseKeptDice_keeps_single_die_witness :
    unkeptCount (fixturePlayer [2, 6, 1, 3, 5] [true, true, true, false, true]) = 1 ∧
    chooseKeptDice false (fixturePlayer [2, 6, 1, 3, 5] [true, true, true, false, true])
        [[120, 10]]
      = Res.ok ({ fixturePlayer [2, 6, 1, 3, 5] [true, true, true, false, true] with
          keptDiceRoll := fun _ => true }, [[120, 10]]) :=
  ⟨by decide,
    chooseKeptDice_keeps_single_die false
      (fixturePlayer [2, 6, 1, 3, 5] [true, true, true, false, true]) [[120, 10]] (by decide)⟩

/-- C8. Keep-all shortcut: for every player with `u ≥ 2` unkept dice, when
the keep count that `chooseKeptDice` works with (the line read from standard
input, or the literal `5` when `SimulatePlay` is set) is the number `u`,
`chooseKeptDice` returns with every kept flag true and with dice values,
scores and name unchanged; of the input it has consumed the keep-count line
only (nothing when `SimulatePlay` is set), so no die index was read. -/
theorem chooseKeptDice_keep_all_shortcut (simulatePlay : Bool) (player : Player)
    (inputs : List Line) (choice : List Nat) (rest : List Line)
    (hu : 2 ≤ unkeptCount player)
    (hchoice : keepCountChoice simulatePlay inputs = Res.ok (choice, rest))
    (hk : atoi choice = some ((unkeptCount player : Nat) : Int)) :
    chooseKeptDice simulatePlay player inputs
      = Res.ok ({ player with keptDiceRoll := fun _ => true }, rest) ∧
    rest = (if simulatePlay then inputs else inputs.tail) := by
  have hle : unkeptCount player ≤ 5 := unkeptCount_le player
  constructor
  · unfold chooseKeptDice
    rw [not_finished_of_unkept player (by omega), getUnkeptDiceRolls_eq, markAllDiceAsKept_eq]
    have h1 : ¬ ((unkeptCount player : Nat) : Int) = 1 := by omega
    have hv : isValidIndexChoice ((unkeptCount player : Nat) : Int) 1 (AmountOfDice : Int)
        = true := by
      rw [isValidIndexChoice_iff]
      constructor
      · omega
      · show ((unkeptCount player : Nat) : Int) ≤ 5
        omega
    simp only [Bool.false_eq_true, if_false, h1, hchoice, hk, hv, if_true]
  · rcases keepCountChoice_ok simulatePlay inputs choice rest hchoice with
      ⟨hs, -, hr⟩ | ⟨hs, hr, -⟩
    · simp [hs, hr]
    · simp [hs, hr]

/-- Witness for C8: three dice are unkept and the player types `3`; all dice
are kept at once and the next line, `1`, stays unread. -/
theorem chooseKeptDice_keep_all_shortcut_witness :
    unkeptCount (fixturePlayer [2, 6, 1, 3, 5] [true, true, false, false, false]) = 3 ∧
    chooseKeptDice false (fixturePlayer [2, 6, 1, 3, 5] [true, true, false, false, false])
        [[51, 10], [49, 10]]
      = Res.ok ({ fixturePlayer [2, 6, 1, 3, 5] [true, true, false, false, false] with
          keptDiceRoll := fun _ => true }, [[49, 10]]) :=
  ⟨by decide,
    (chooseKeptDice_keep_all_shortcut false
      (fixturePlayer [2, 6, 1, 3, 5] [true, true, false, false, false])
      [[51, 10], [49, 10]] [51] [[49, 10]] (by decide) rfl (by decide)).1⟩

/-- With two or more dice unkept, a keep count above their number but within
`[1, AmountOfDice]` is not rejected, and the call then never returns. -/
theorem chooseKeptDice_overcount (sim : Bool) (p : Player) (inputs : List Line)
    (choice : List Nat) (rest : List Line) (k : Int)
    (hu : 2 ≤ unkeptCount p)
    (hc : keepCountChoice sim inputs = Res.ok (choice, rest))
    (hk : atoi choice = some k) (hlt : ((unkeptCount p : Nat) : Int) < k) (hk5 : k ≤ 5)
    (res : Player × List Line) :
    chooseKeptDice sim p inputs ≠ Res.ok res := by
  have hone : ¬ ((unkeptCount p : Nat) : Int) = 1 := by omega
  have hv : isValidIndexChoice k 1 (AmountOfDice : Int) = true := by
    rw [isValidIndexChoice_iff]
    constructor
    · omega
    · exact hk5
  have hne : ¬ k = ((unkeptCount p : Nat) : Int) := by omega
  unfold chooseKeptDice
  rw [not_finished_of_unkept p (by omega), getUnkeptDiceRolls_eq]
  simp only [Bool.false_eq_true, if_false, hone, hc, hk, hv, if_true, hne]
  unfold exhaustUntilAllChosenDiceKept
  apply exhaustLoop_overcount
  omega

/-- C7, the failing input.  Three dice are unkept and the keep count is `5`,
a number outside `[1, 3]`.  The count is not rejected: `chooseKeptDice`
validates it against `AmountOfDice`, so it goes on to ask for die indices (on
the keep-count line alone the call is blocked at the die-index prompt), and
whatever lines follow it never returns, five unkept dice being asked of a
player who has three.  The same happens with the literal keep count `5` of
`SimulatePlay`, and a turn played from a fresh player reaches this state: keep
count `2`, dice `1` and `2`, then keep count `5`. -/
theorem chooseKeptDice_count_above_unkept_not_rejected :
    unkeptCount (fixturePlayer [2, 6, 1, 3, 5] [true, true, false, false, false]) = 3 ∧
    chooseKeptDice false (fixturePlayer [2, 6, 1, 3, 5] [true, true, false, false, false])
      [[53, 10]] = Res.blocked ∧
    (∀ (more : List Line) (res : Player × List Line),
      chooseKeptDice false (fixturePlayer [2, 6, 1, 3, 5] [true, true, false, false, false])
        ([53, 10] :: more) ≠ Res.ok res) ∧
    (∀ (more : List Line) (res : Player × List Line),
      chooseKeptDice SimulatePlay
        (fixturePlayer [2, 6, 1, 3, 5] [true, true, false, false, false]) more ≠ Res.ok res) ∧
    takeTurnLoop false 3 freshPlayer
      ⟨[3, 1, 6, 2, 5, 4, 4, 1], [[50, 10], [49, 10], [50, 10], [53, 10]]⟩ = Res.blocked := by
  have h3 : unkeptCount (fixturePlayer [2, 6, 1, 3, 5] [true, true, false, false, false]) = 3 := by
    decide
  refine ⟨h3, rfl, ?_, ?_, rfl⟩
  · intro more res
    have hc : keepCountChoice false ([53, 10] :: more) = Res.ok ([53], more) := by
      simp [keepCountChoice, getUserChoice, byteSize_eq, runeString]
    exact chooseKeptDice_overcount false _ _ [53] more 5 (by rw [h3]; decide) hc atoi_five
      (by rw [h3]; decide) (by decide) res
  · intro more res
    exact chooseKeptDice_overcount SimulatePlay _ more [53] more 5 (by rw [h3]; decide) rfl
      atoi_five (by rw [h3]; decide) (by decide) res

/-! ## Rolling -/

/-- What a returning pass of the rolling loop over the indices `l` has done. -/
theorem populateFrom_ok (l : List (Fin AmountOfDice)) (hl : l.Nodup) :
    ∀ (p : Player) (rolls : List Int) (p2 : Player) (rest : List Int),
      populateFrom l p rolls = Res.ok (p2, rest) →
      p2.keptDiceRoll = p.keptDiceRoll ∧ p2.roundScores = p.roundScores ∧
      p2.playerName = p.playerName ∧
      (∀ i, i ∉ l ∨ p.keptDiceRoll i = true → p2.currentRoundDice i = p.currentRoundDice i) ∧
      (l.filter (fun i => !p.keptDiceRoll i)).map p2.currentRoundDice
        = rolls.take (l.filter (fun i => !p.keptDiceRoll i)).length ∧
      rest = rolls.drop (l.filter (fun i => !p.keptDiceRoll i)).length := by
  induction l with
  | nil =>
    intro p rolls p2 rest h
    simp only [populateFrom, Res.ok.injEq, Prod.mk.injEq] at h
    obtain ⟨rfl, rfl⟩ := h
    simp
  | cons j l ih =>
    intro p rolls p2 rest h
    have hj : j ∉ l := (List.nodup_cons.1 hl).1
    have hl2 : l.Nodup := (List.nodup_cons.1 hl).2
    unfold populateFrom at h
    cases hk : p.keptDiceRoll j with
    | true =>
      simp only [hk, Bool.not_true, Bool.false_eq_true, if_false] at h
      obtain ⟨a, b, c, d, e, f⟩ := ih hl2 p rolls p2 rest h
      refine ⟨a, b, c, ?_, ?_, ?_⟩
      · intro i hi
        apply d
        rcases hi with hi | hi
        · exact Or.inl (fun hm => hi (List.mem_cons_of_mem _ hm))
        · exact Or.inr hi
      · simpa [List.filter, hk] using e
      · simpa [List.filter, hk] using f
    | false =>
      simp only [hk, Bool.not_false, if_true] at h
      cases rolls with
      | nil => simp [getDieRoll] at h
      | cons r rs =>
        simp only [getDieRoll] at h
        obtain ⟨a, b, c, d, e, f⟩ := ih hl2 _ rs p2 rest h
        simp only at a b c d e f
        refine ⟨a, b, c, ?_, ?_, ?_⟩
        · intro i hi
          have hij : i ≠ j := by
            rintro rfl
            rcases hi with hi | hi
            · exact hi (List.mem_cons_self _ _)
            · rw [hk] at hi
              exact Bool.noConfusion hi
          have := d i (by
            rcases hi with hi | hi
            · exact Or.inl (fun hm => hi (List.mem_cons_of_mem _ hm))
            · exact Or.inr hi)
          rw [this, Function.update_noteq hij]
        · have hjv : p2.currentRoundDice j = r := by
            rw [d j (Or.inl hj)]
            simp
          simp [List.filter, hk, hjv, e]
        · simpa [List.filter, hk] using f

/-- The rolling loop returns as soon as the die source holds one value for
each unkept die. -/
theorem populateFrom_returns (l : List (Fin AmountOfDice)) :
    ∀ (p : Player) (rolls : List Int),
      (l.filter (fun i => !p.keptDiceRoll i)).length ≤ rolls.length →
      ∃ res, populateFrom l p rolls = Res.ok res := by
  induction l with
  | nil =>
    intro p rolls _
    exact ⟨_, rfl⟩
  | cons j l ih =>
    intro p rolls h
    unfold populateFrom
    cases hk : p.keptDiceRoll j with
    | true =>
      simp only [Bool.not_true, Bool.false_eq_true, if_false]
      apply ih
      simpa [List.filter, hk] using h
    | false =>
      simp only [Bool.not_false, if_true]
      cases rolls with
      | nil => simp [List.filter, hk] at h
      | cons r rs =>
        simp only [getDieRoll]
        apply ih
        simpa [List.filter, hk] using h

/-- C10. Within a turn a kept die is frozen.  First part: for every player
and every die stream holding a value for each unkept die, `populateRoundDice`
returns; every die whose kept flag is true keeps its value; the unkept dice,
in index order, receive the next values of the stream, one each (so a value
in `[1, MaxDieFace]` whenever the stream's values are); flags, scores and name
are unchanged.  Second part: whenever `chooseKeptDice` returns, no die value
has changed and every flag that was true is still true. -/
theorem kept_dice_are_frozen :
    (∀ (player : Player) (rolls : List Int), unkeptCount player ≤ rolls.length →
      ∃ rolled : Player,
        populateRoundDice player rolls = Res.ok (rolled, rolls.drop (unkeptCount player)) ∧
        (∀ i, player.keptDiceRoll i = true →
          rolled.currentRoundDice i = player.currentRoundDice i) ∧
        ((List.finRange AmountOfDice).filter (fun i => !player.keptDiceRoll i)).map
            rolled.currentRoundDice = rolls.take (unkeptCount player) ∧
        ((∀ r ∈ rolls, 1 ≤ r ∧ r ≤ MaxDieFace) → ∀ i, player.keptDiceRoll i = false →
          1 ≤ rolled.currentRoundDice i ∧ rolled.currentRoundDice i ≤ MaxDieFace) ∧
        rolled.keptDiceRoll = player.keptDiceRoll ∧
        rolled.roundScores = player.roundScores ∧ rolled.playerName = player.playerName) ∧
    (∀ (simulatePlay : Bool) (player : Player) (inputs : List Line) (chosen : Player)
      (rest : List Line),
      chooseKeptDice simulatePlay player inputs = Res.ok (chosen, rest) →
      chosen.currentRoundDice = player.currentRoundDice ∧
      ∀ i, player.keptDiceRoll i = true → chosen.keptDiceRoll i = true) := by
  constructor
  · intro player rolls hlen
    obtain ⟨⟨rolled, rest⟩, hres⟩ :=
      populateFrom_returns (List.finRange AmountOfDice) player rolls hlen
    obtain ⟨a, b, c, d, e, f⟩ :=
      populateFrom_ok (List.finRange AmountOfDice) (List.nodup_finRange _) player rolls rolled rest hres
    refine ⟨rolled, ?_, fun i hi => d i (Or.inr hi), e, ?_, a, b, c⟩
    · unfold populateRoundDice
      rw [hres, f]
      rfl
    · intro hr i hi
      have hm : rolled.currentRoundDice i ∈
          ((List.finRange AmountOfDice).filter (fun i => !player.keptDiceRoll i)).map
            rolled.currentRoundDice := by
        apply List.mem_map_of_mem
        simp [hi]
      rw [e] at hm
      exact hr _ (List.mem_of_mem_take hm)
  · intro simulatePlay player inputs chosen rest h
    obtain ⟨a, -, -, d, -⟩ := chooseKeptDice_ok simulatePlay player inputs chosen rest h
    exact ⟨a, d⟩

/-- Witness for C10: dice 0 and 2 are kept; the rolls `6, 1, 3` go to the
dice 1, 3 and 4 and the roll `4` is left in the stream. -/
theorem kept_dice_are_frozen_witness :
    ∃ rolled : Player,
      populateRoundDice (fixturePlayer [2, 0, 5, 0, 0] [true, false, true, false, false])
        [6, 1, 3, 4] = Res.ok (rolled, [4]) ∧
      (List.finRange AmountOfDice).map rolled.currentRoundDice = [2, 6, 5, 1, 3] ∧
      ∀ i, (fixturePlayer [2, 0, 5, 0, 0] [true, false, true, false, false]).keptDiceRoll i
          = true →
        rolled.currentRoundDice i
          = (fixturePlayer [2, 0, 5, 0, 0] [true, false, true, false, false]).currentRoundDice
              i := by
  obtain ⟨rolled, hres, hkept, hnew, -⟩ := kept_dice_are_frozen.1
    (fixturePlayer [2, 0, 5, 0, 0] [true, false, true, false, false]) [6, 1, 3, 4] (by decide)
  refine ⟨rolled, hres, ?_, hkept⟩
  have h0 := hkept 0 rfl
  have h2 := hkept 2 rfl
  have hf : (List.finRange AmountOfDice).filter
      (fun i => !(fixturePlayer [2, 0, 5, 0, 0]
        [true, false, true, false, false]).keptDiceRoll i) = [1, 3, 4] := by decide
  have hu : unkeptCount (fixturePlayer [2, 0, 5, 0, 0] [true, false, true, false, false])
      = 3 := by decide
  rw [hf, hu] at hnew
  simp only [List.map_cons, List.map_nil, List.take_succ_cons, List.take_zero, List.cons.injEq,
    and_true] at hnew
  obtain ⟨h1, h3, h4⟩ := hnew
  rw [finRange_five]
  simp only [List.map_cons, List.map_nil, h0, h1, h2, h3, h4]
  rfl

/-! ## The roll-keep loop -/

theorem unkeptCount_congr (p q : Player) (h : q.keptDiceRoll = p.keptDiceRoll) :
    unkeptCount q = unkeptCount p := by
  unfold unkeptCount
  rw [h]

theorem populateRoundDice_ok (p : Player) (rolls : List Int) (p2 : Player) (rest : List Int)
    (h : populateRoundDice p rolls = Res.ok (p2, rest)) :
    p2.keptDiceRoll = p.keptDiceRoll ∧ hasFinishedTurn p2 = hasFinishedTurn p ∧
    unkeptCount p2 = unkeptCount p := by
  obtain ⟨a, -⟩ :=
    populateFrom_ok (List.finRange AmountOfDice) (List.nodup_finRange _) p rolls p2 rest h
  refine ⟨a, ?_, unkeptCount_congr p p2 a⟩
  unfold hasFinishedTurn
  rw [a]

/-- The loop exits only with all dice kept, and the passes whose keep count
was not rejected are at most as many as the dice that were unkept. -/
theorem takeTurnLoop_ok (sim : Bool) (fuel : Nat) :
    ∀ (p : Player) (w : World) (e : LoopExit),
      takeTurnLoop sim fuel p w = Res.ok e →
      hasFinishedTurn e.player = true ∧ e.iterations ≤ unkeptCount p + e.rejected ∧
      e.rejected ≤ e.iterations ∧ (sim = true → e.rejected = 0) := by
  induction fuel with
  | zero =>
    intro p w e h
    unfold takeTurnLoop at h
    split_ifs at h with hf
    simp only [Res.ok.injEq] at h
    subst h
    simp [hf]
  | succ fuel ih =>
    intro p w e h
    unfold takeTurnLoop at h
    split_ifs at h with hf
    · simp only [Res.ok.injEq] at h
      subst h
      simp [hf]
    · cases hp : populateRoundDice p w.rolls with
      | panic => simp [hp] at h
      | blocked => simp [hp] at h
      | timeout => simp [hp] at h
      | ok v =>
        obtain ⟨rolled, rolls⟩ := v
        simp only [hp] at h
        obtain ⟨-, hfr, hur⟩ := populateRoundDice_ok p w.rolls rolled rolls hp
        cases hc : chooseKeptDice sim rolled w.inputs with
        | panic => simp [hc] at h
        | blocked => simp [hc] at h
        | timeout => simp [hc] at h
        | ok v2 =>
          obtain ⟨chosen, inputs⟩ := v2
          simp only [hc] at h
          cases hl : takeTurnLoop sim fuel chosen ⟨rolls, inputs⟩ with
          | panic => simp [hl] at h
          | blocked => simp [hl] at h
          | timeout => simp [hl] at h
          | ok e2 =>
            simp only [hl, Res.ok.injEq] at h
            subst h
            obtain ⟨i1, i2, i3, i4⟩ := ih _ _ _ hl
            obtain ⟨-, -, -, -, hcases⟩ := chooseKeptDice_ok sim rolled w.inputs chosen inputs hc
            rcases hcases with ⟨hfin, -, -⟩ | ⟨-, hrej, hs, hsame, -, -⟩ | ⟨-, hrej, hlt, -⟩
            · rw [hfr] at hfin
              exact absurd hfin hf
            · subst hsame
              simp only [hrej, if_true]
              refine ⟨i1, by omega, by omega, ?_⟩
              intro hst
              rw [hst] at hs
              exact Bool.noConfusion hs
            · simp only [hrej, Bool.false_eq_true, if_false]
              exact ⟨i1, by omega, by omega, fun hst => by simpa using i4 hst⟩

theorem populateFrom_no_timeout (l : List (Fin AmountOfDice)) :
    ∀ (p : Player) (rolls : List Int), populateFrom l p rolls ≠ Res.timeout := by
  induction l with
  | nil =>
    intro p rolls
    simp [populateFrom]
  | cons j l ih =>
    intro p rolls
    unfold populateFrom
    split_ifs
    · cases rolls with
      | nil => simp [getDieRoll]
      | cons r rs =>
        simp only [getDieRoll]
        exact ih _ _
    · exact ih _ _

theorem getValidatedChoiceIndex_no_timeout (p : Player) :
    ∀ inputs : List Line, getValidatedChoiceIndex p inputs ≠ Res.timeout := by
  intro inputs
  induction inputs with
  | nil => simp [getValidatedChoiceIndex]
  | cons input tl ih =>
    unfold getValidatedChoiceIndex
    cases input[byteSize - 1]? with
    | none => simp
    | some b =>
      simp only
      cases atoi (runeString b) with
      | none => exact ih
      | some k =>
        simp only
        split_ifs
        · cases toIndex AmountOfDice (goSub k 1) with
          | none => simp
          | some i =>
            simp only
            split_ifs
            · simp
            · exact ih
        · exact ih

theorem exhaustLoop_no_timeout (n : Nat) :
    ∀ (p : Player) (inputs : List Line), exhaustLoop n p inputs ≠ Res.timeout := by
  induction n with
  | zero =>
    intro p inputs
    simp [exhaustLoop]
  | succ n ih =>
    intro p inputs
    unfold exhaustLoop
    cases hg : getValidatedChoiceIndex p inputs with
    | panic => simp
    | blocked => simp
    | timeout => exact absurd hg (getValidatedChoiceIndex_no_timeout p inputs)
    | ok v =>
      obtain ⟨num, rest⟩ := v
      simp only
      cases toIndex AmountOfDice (goSub num 1) with
      | none => simp
      | some i => exact ih _ _

theorem chooseKeptDice_no_timeout (sim : Bool) (p : Player) (inputs : List Line) :
    chooseKeptDice sim p inputs ≠ Res.timeout := by
  unfold chooseKeptDice
  by_cases hf : hasFinishedTurn p = true
  · simp [hf]
  by_cases hone : getUnkeptDiceRolls p = 1
  · simp [hf, hone]
  simp only [hf, hone, Bool.false_eq_true, if_false]
  · cases hc : keepCountChoice sim inputs with
    | panic => simp
    | blocked => simp
    | timeout =>
      exfalso
      unfold keepCountChoice getUserChoice at hc
      cases sim with
      | true => simp at hc
      | false =>
        cases inputs with
        | nil => simp at hc
        | cons input tl =>
          simp only [Bool.false_eq_true, if_false] at hc
          cases hb : input[byteSize - 1]? with
          | none => simp [hb] at hc
          | some b => simp [hb] at hc
    | ok v =>
      obtain ⟨choice, rest⟩ := v
      simp only
      cases atoi choice with
      | none => simp
      | some k =>
        simp only
        split_ifs
        · simp
        · exact exhaustLoop_no_timeout _ _ _
        · simp

theorem takeTurnLoop_of_finished (sim : Bool) (fuel : Nat) (p : Player) (w : World)
    (h : hasFinishedTurn p = true) : takeTurnLoop sim fuel p w = Res.ok ⟨p, w, 0, 0⟩ := by
  cases fuel with
  | zero => simp [takeTurnLoop, h]
  | succ fuel => simp [takeTurnLoop, h]

/-- The iteration budget is never what stops the loop once it exceeds the
number of input lines: every pass that does not finish the turn reads a line. -/
theorem takeTurnLoop_fuel (sim : Bool) (fuel : Nat) :
    ∀ (p : Player) (w : World), w.inputs.length < fuel →
      takeTurnLoop sim fuel p w ≠ Res.timeout := by
  induction fuel with
  | zero =>
    intro p w h
    exact absurd h (Nat.not_lt_zero _)
  | succ fuel ih =>
    intro p w h
    unfold takeTurnLoop
    split_ifs with hf
    · simp
    · cases hp : populateRoundDice p w.rolls with
      | panic => simp
      | blocked => simp
      | timeout => exact absurd hp (populateFrom_no_timeout _ _ _)
      | ok v =>
        obtain ⟨rolled, rolls⟩ := v
        simp only
        obtain ⟨-, hfr, -⟩ := populateRoundDice_ok p w.rolls rolled rolls hp
        cases hc : chooseKeptDice sim rolled w.inputs with
        | panic => simp
        | blocked => simp
        | timeout => exact absurd hc (chooseKeptDice_no_timeout _ _ _)
        | ok v2 =>
          obtain ⟨chosen, inputs⟩ := v2
          simp only
          obtain ⟨-, -, -, -, hcases⟩ := chooseKeptDice_ok sim rolled w.inputs chosen inputs hc
          have hnext : takeTurnLoop sim fuel chosen ⟨rolls, inputs⟩ ≠ Res.timeout := by
            rcases hcases with ⟨hfin, -, -⟩ | ⟨-, -, -, -, -, hlen⟩ | ⟨-, -, -, hfin | hlen⟩
            · rw [hfr] at hfin
              exact absurd hfin hf
            · apply ih
              simp only
              omega
            · rw [takeTurnLoop_of_finished sim fuel chosen _ hfin]
              simp
            · apply ih
              simp only
              omega
          cases hl : takeTurnLoop sim fuel chosen ⟨rolls, inputs⟩ with
          | panic => simp
          | blocked => simp
          | timeout => exact absurd hl hnext
          | ok e2 => simp

set_option maxRecDepth 100000

/-- C6, counterexample.  With `SimulatePlay` off, a fresh player and the keep
counts `x`, `0`, `9`, `-1`, `7`, `5`, the loop exits after six passes, more
than `AmountOfDice`: the first five passes keep no die.  Cut off after five
passes the loop has not exited. -/
theorem takeTurnLoop_six_iterations :
    (∃ e, takeTurnLoop false 6 freshPlayer sixPassWorld = Res.ok e ∧
      e.iterations = 6 ∧ e.rejected = 5 ∧ ¬ e.iterations ≤ AmountOfDice) ∧
    takeTurnLoop false 5 freshPlayer sixPassWorld = Res.timeout :=
  ⟨⟨_, rfl, rfl, rfl, by decide⟩, rfl⟩

/-- C6, amended.  For every die stream and every input on which the roll-keep
loop of `takeTurn` exits: at exit all `AmountOfDice` kept flags are true, and
the number of passes is at most the number of dice that were unkept (at most
`AmountOfDice`) plus the number of passes whose keep count was rejected, a
rejected keep count keeping no die and every other pass at least one.  With
`SimulatePlay` set no keep count is rejected, so the loop then exits after at
most `AmountOfDice` passes. -/
theorem takeTurnLoop_exit_bound (simulatePlay : Bool) (fuel : Nat) (player : Player)
    (w : World) (e : LoopExit)
    (h : takeTurnLoop simulatePlay fuel player w = Res.ok e) :
    (∀ i, e.player.keptDiceRoll i = true) ∧
    e.iterations ≤ unkeptCount player + e.rejected ∧
    unkeptCount player ≤ AmountOfDice ∧
    (simulatePlay = true → e.rejected = 0 ∧ e.iterations ≤ AmountOfDice) := by
  obtain ⟨a, b, -, d⟩ := takeTurnLoop_ok simulatePlay fuel player w e h
  have hle : unkeptCount player ≤ 5 := unkeptCount_le player
  refine ⟨(hasFinishedTurn_iff _).1 a, b, hle, fun hs => ⟨d hs, ?_⟩⟩
  have := d hs
  show e.iterations ≤ 5
  omega

/-- Witness for C6: a turn of three passes, the first with a rejected keep
count, from a fresh player. -/
theorem takeTurnLoop_exit_bound_witness :
    ∃ e, takeTurnLoop false 4 freshPlayer threePassWorld = Res.ok e ∧
      e.iterations = 3 ∧ e.rejected = 1 ∧
      (∀ i, e.player.keptDiceRoll i = true) ∧
      e.iterations ≤ unkeptCount freshPlayer + e.rejected := by
  refine ⟨_, rfl, rfl, rfl, ?_, ?_⟩
  · exact (takeTurnLoop_exit_bound false 4 freshPlayer threePassWorld _ rfl).1
  · exact (takeTurnLoop_exit_bound false 4 freshPlayer threePassWorld _ rfl).2.1

/-! ## The whole turn -/

/-- The roll-keep loop writes neither the scores nor the name. -/
theorem takeTurnLoop_frame (sim : Bool) (fuel : Nat) :
    ∀ (p : Player) (w : World) (e : LoopExit),
      takeTurnLoop sim fuel p w = Res.ok e →
      e.player.roundScores = p.roundScores ∧ e.player.playerName = p.playerName := by
  induction fuel with
  | zero =>
    intro p w e h
    unfold takeTurnLoop at h
    split_ifs at h with hf
    simp only [Res.ok.injEq] at h
    subst h
    exact ⟨rfl, rfl⟩
  | succ fuel ih =>
    intro p w e h
    unfold takeTurnLoop at h
    split_ifs at h with hf
    · simp only [Res.ok.injEq] at h
      subst h
      exact ⟨rfl, rfl⟩
    · cases hp : populateRoundDice p w.rolls with
      | panic => simp [hp] at h
      | blocked => simp [hp] at h
      | timeout => simp [hp] at h
      | ok v =>
        obtain ⟨rolled, rolls⟩ := v
        simp only [hp] at h
        obtain ⟨-, a1, a2, -⟩ :=
          populateFrom_ok (List.finRange AmountOfDice) (List.nodup_finRange _) p w.rolls rolled
            rolls hp
        cases hc : chooseKeptDice sim rolled w.inputs with
        | panic => simp [hc] at h
        | blocked => simp [hc] at h
        | timeout => simp [hc] at h
        | ok v2 =>
          obtain ⟨chosen, inputs⟩ := v2
          simp only [hc] at h
          obtain ⟨-, b1, b2, -⟩ := chooseKeptDice_ok sim rolled w.inputs chosen inputs hc
          cases hl : takeTurnLoop sim fuel chosen ⟨rolls, inputs⟩ with
          | panic => simp [hl] at h
          | blocked => simp [hl] at h
          | timeout => simp [hl] at h
          | ok e2 =>
            simp only [hl, Res.ok.injEq] at h
            subst h
            obtain ⟨c1, c2⟩ := ih _ _ _ hl
            exact ⟨by rw [c1, b1, a1], by rw [c2, b2, a2]⟩

/-- What a returning `takeTurn` has done, in terms of the exit of its loop. -/
theorem takeTurn_ok (sim : Bool) (fuel : Nat) (p : Player) (r : Int) (w : World)
    (played : Player) (w2 : World) (idx : Fin AmountOfRounds)
    (hidx : toIndex AmountOfRounds (goSub r 1) = some idx)
    (h : takeTurn sim fuel p r w = Res.ok (played, w2)) :
    ∃ e : LoopExit, takeTurnLoop sim fuel p w = Res.ok e ∧ w2 = e.world ∧
      (∀ i, e.player.keptDiceRoll i = true) ∧
      played = ⟨Function.update p.roundScores idx
          (wrapInt (scoringDice e.player.currentRoundDice).sum),
        fun _ => 0, fun _ => false, p.playerName⟩ := by
  unfold takeTurn at h
  cases hl : takeTurnLoop sim fuel p w with
  | panic => simp [hl] at h
  | blocked => simp [hl] at h
  | timeout => simp [hl] at h
  | ok e =>
    simp only [hl] at h
    unfold tallyRoundScore at h
    simp only [hidx, Res.ok.injEq, Prod.mk.injEq] at h
    obtain ⟨hp, hw⟩ := h
    obtain ⟨f1, f2⟩ := takeTurnLoop_frame sim fuel p w e hl
    obtain ⟨g1, -⟩ := takeTurnLoop_ok sim fuel p w e hl
    refine ⟨e, rfl, hw.symm, (hasFinishedTurn_iff _).1 g1, ?_⟩
    rw [← hp, clearRound_eq, tallyDice_eq, f1, f2]

/-- C11. For every round number `roundIndex` in `1..AmountOfRounds` and every
run of `takeTurn(roundIndex)` that completes: the roll-keep loop has exited
with all dice kept; afterwards every `currentRoundDice` value is 0 and every
kept flag is false; `roundScores[roundIndex-1]` is the tally (the sum, in Go
`int` arithmetic, of the values different from `ZeroNumber`) of the dice as
they stood at the exit of the loop; every other `roundScores` entry and the
name are as before the turn. -/
theorem takeTurn_clears_round_and_stores_tally (simulatePlay : Bool) (fuel : Nat)
    (player : Player) (roundIndex : Int) (w : World) (played : Player) (w2 : World)
    (h1 : 1 ≤ roundIndex) (h2 : roundIndex ≤ AmountOfRounds)
    (h : takeTurn simulatePlay fuel player roundIndex w = Res.ok (played, w2)) :
    ∃ (r : Fin AmountOfRounds) (e : LoopExit),
      ((r : Nat) : Int) = roundIndex - 1 ∧
      takeTurnLoop simulatePlay fuel player w = Res.ok e ∧ w2 = e.world ∧
      (∀ i, e.player.keptDiceRoll i = true) ∧
      (∀ i, played.currentRoundDice i = 0) ∧
      (∀ i, played.keptDiceRoll i = false) ∧
      played.roundScores r = wrapInt (scoringDice e.player.currentRoundDice).sum ∧
      (∀ j, j ≠ r → played.roundScores j = player.roundScores j) ∧
      played.playerName = player.playerName := by
  obtain ⟨r, hr, hidx⟩ := roundSlot roundIndex h1 h2
  obtain ⟨e, hl, hw, hk, hp⟩ := takeTurn_ok simulatePlay fuel player roundIndex w played w2 r hidx h
  refine ⟨r, e, hr, hl, hw, hk, ?_, ?_, ?_, ?_, ?_⟩
  · intro i
    rw [hp]
  · intro i
    rw [hp]
  · rw [hp]
    simp
  · intro j hj
    rw [hp]
    simp [Function.update_noteq hj]
  · rw [hp]

/-- Witness for C11: the turn of three passes of `threePassWorld`, played for
round 1, ends with the dice `4, 5, 1, 3, 1` and stores `5 + 1 + 3 + 1 = 10`. -/
theorem takeTurn_clears_round_and_stores_tally_witness :
    ∃ (played : Player) (w2 : World) (e : LoopExit),
      takeTurn false 4 freshPlayer 1 threePassWorld = Res.ok (played, w2) ∧
      takeTurnLoop false 4 freshPlayer threePassWorld = Res.ok e ∧
      (List.finRange AmountOfDice).map e.player.currentRoundDice = [4, 5, 1, 3, 1] ∧
      (List.finRange AmountOfRounds).map played.roundScores = [10, 0, 0, 0] ∧
      (∀ i, played.currentRoundDice i = 0) ∧ (∀ i, played.keptDiceRoll i = false) := by
  have h : ∃ r e, _ := takeTurn_clears_round_and_stores_tally false 4 freshPlayer 1
    threePassWorld _ _ (by decide) (by decide) rfl
  obtain ⟨r, e, -, -, -, -, hd, hk, -⟩ := h
  exact ⟨_, _, _, rfl, rfl, by decide, by decide, hd, hk⟩

/-! ## Score bounds and the simulated turn -/

theorem filter_sum_bounds (P : Int → Bool) (l : List Int) (h : ∀ d ∈ l, 0 ≤ d ∧ d ≤ 6) :
    0 ≤ (l.filter P).sum ∧ (l.filter P).sum ≤ 6 * (l.length : Int) := by
  induction l with
  | nil => simp
  | cons d l ih =>
    have hd := h d (List.mem_cons_self _ _)
    have htl := ih (fun x hx => h x (List.mem_cons_of_mem _ hx))
    by_cases hp : P d = true
    · simp only [List.filter_cons_of_pos hp, List.sum_cons, List.length_cons, Nat.cast_add,
        Nat.cast_one]
      omega
    · simp only [List.filter_cons_of_neg hp, List.length_cons, Nat.cast_add, Nat.cast_one]
      omega

theorem tallyDice_bounds (dice : Fin AmountOfDice → Int)
    (h : ∀ i, 0 ≤ dice i ∧ dice i ≤ MaxDieFace) :
    0 ≤ tallyDice dice ∧ tallyDice dice ≤ 30 := by
  have hb := filter_sum_bounds (fun d => decide (d ≠ ZeroNumber))
    ((List.finRange AmountOfDice).map dice) (by
      intro d hd
      obtain ⟨i, -, rfl⟩ := List.mem_map.1 hd
      exact h i)
  have hlen : (((List.finRange AmountOfDice).map dice).length : Int) = 5 := by simp
  rw [hlen] at hb
  have hs : (scoringDice dice).sum
      = (((List.finRange AmountOfDice).map dice).filter (fun d => decide (d ≠ ZeroNumber))).sum :=
    rfl
  rw [tallyDice_eq, hs, wrapInt_of_fits _ (by omega) (by omega)]
  omega

theorem calcuateTotalGameScore_bounds (p : Player)
    (h : ∀ r, 0 ≤ p.roundScores r ∧ p.roundScores r ≤ 30) :
    0 ≤ calcuateTotalGameScore p ∧ calcuateTotalGameScore p ≤ 120 := by
  have h0 := h 0
  have h1 := h 1
  have h2 := h 2
  have h3 := h 3
  unfold calcuateTotalGameScore
  rw [finRange_four]
  simp only [List.foldl, goAdd]
  rw [wrapInt_of_fits (0 + p.roundScores 0) (by omega) (by omega)]
  rw [wrapInt_of_fits (0 + p.roundScores 0 + p.roundScores 1) (by omega) (by omega)]
  rw [wrapInt_of_fits (0 + p.roundScores 0 + p.roundScores 1 + p.roundScores 2) (by omega)
    (by omega)]
  rw [wrapInt_of_fits _ (by omega) (by omega)]
  omega

theorem five_sixes : tallyDice (fun _ => MaxDieFace) = MaxRoundScore := by
  have hs : (scoringDice (fun _ => MaxDieFace)).sum = 30 := by decide
  rw [tallyDice_eq, hs]
  decide

/-- C17. Score bounds behind the winner sentinels.  For every player whose
dice all lie in `[0, MaxDieFace]` and every round number in
`1..AmountOfRounds`, `tallyRoundScore` stores a score in `[0, MaxRoundScore]`;
`MaxRoundScore` is 30 and is the tally of five sixes.  For every player each
of whose four round scores is such a tally, `calcuateTotalGameScore` lies in
`[0, MaxPossibleScore]`, and `MaxPossibleScore` is 120.  So the sentinels of
`calculateRoundWinner` and `calculateGameWinner` are never below such a
score. -/
theorem scores_stay_within_sentinels :
    (∀ (player : Player) (roundIndex : Int), 1 ≤ roundIndex → roundIndex ≤ AmountOfRounds →
      (∀ i, 0 ≤ player.currentRoundDice i ∧ player.currentRoundDice i ≤ MaxDieFace) →
      ∃ (r : Fin AmountOfRounds) (tallied : Player),
        ((r : Nat) : Int) = roundIndex - 1 ∧
        tallyRoundScore player roundIndex = Res.ok tallied ∧
        tallied.roundScores r = tallyDice player.currentRoundDice ∧
        0 ≤ tallied.roundScores r ∧ tallied.roundScores r ≤ MaxRoundScore) ∧
    (MaxRoundScore = 30 ∧ tallyDice (fun _ => MaxDieFace) = MaxRoundScore) ∧
    (∀ player : Player,
      (∀ r, ∃ dice : Fin AmountOfDice → Int, (∀ i, 0 ≤ dice i ∧ dice i ≤ MaxDieFace) ∧
        player.roundScores r = tallyDice dice) →
      0 ≤ calcuateTotalGameScore player ∧ calcuateTotalGameScore player ≤ MaxPossibleScore) ∧
    MaxPossibleScore = 120 := by
  refine ⟨?_, ⟨by decide, five_sixes⟩, ?_, by decide⟩
  · intro player roundIndex h1 h2 hd
    obtain ⟨r, hr, hidx⟩ := roundSlot roundIndex h1 h2
    have hb := tallyDice_bounds player.currentRoundDice hd
    refine ⟨r,
      { player with
        roundScores := Function.update player.roundScores r (tallyDice player.currentRoundDice) },
      hr, ?_, ?_, ?_, ?_⟩
    · unfold tallyRoundScore
      rw [hidx]
    · simp
    · simp only [Function.update_same]
      exact hb.1
    · simp only [Function.update_same]
      exact hb.2
  · intro player hs
    apply calcuateTotalGameScore_bounds
    intro r
    obtain ⟨dice, hd, he⟩ := hs r
    rw [he]
    exact tallyDice_bounds dice hd

/-- Witness for C17: the dice `6, 6, 4, 1, 0` tallied for round 3 store 13,
within `[0, 30]`. -/
theorem scores_stay_within_sentinels_witness :
    ∃ tallied : Player,
      tallyRoundScore (fixturePlayer [6, 6, 4, 1, 0] []) 3 = Res.ok tallied ∧
      tallied.roundScores 2 = 13 ∧
      0 ≤ tallied.roundScores 2 ∧ tallied.roundScores 2 ≤ MaxRoundScore := by
  obtain ⟨r, tallied, hr, hres, hval, h0, h30⟩ := scores_stay_within_sentinels.1
    (fixturePlayer [6, 6, 4, 1, 0] []) 3 (by decide) (by decide) (by decide)
  have hr2 : r = 2 := by
    apply Fin.ext
    have h3 : ((r : Nat) : Int) = 3 - 1 := hr
    show (r : Nat) = 2
    omega
  subst hr2
  refine ⟨tallied, hres, ?_, h0, h30⟩
  rw [hval]
  decide

/-- C18. With the constants as shipped (`SimulatePlay = true`, keep count
`5`, five dice), for every round number in `1..AmountOfRounds`, every player
with all kept flags false and every die source, whose next five values are
`rolled`: the roll-keep loop of `takeTurn` makes exactly one pass, in which
the five dice receive the five values in index order and are all kept; no
input line is read and no keep count is rejected; and `takeTurn` stores the
tally of those five values in `roundScores[roundIndex-1]`, clears dice and
flags, and leaves the die source after the five values. -/
theorem simulated_turn_is_one_pass (fuel : Nat) (player : Player) (roundIndex : Int)
    (rolled : Fin AmountOfDice → Int) (rest : List Int) (inputs : List Line)
    (h1 : 1 ≤ roundIndex) (h2 : roundIndex ≤ AmountOfRounds)
    (hclear : ∀ i, player.keptDiceRoll i = false) :
    takeTurnLoop SimulatePlay (fuel + 1) player
        ⟨(List.finRange AmountOfDice).map rolled ++ rest, inputs⟩
      = Res.ok ⟨{ player with currentRoundDice := rolled, keptDiceRoll := fun _ => true },
          ⟨rest, inputs⟩, 1, 0⟩ ∧
    ∃ r : Fin AmountOfRounds, ((r : Nat) : Int) = roundIndex - 1 ∧
      takeTurn SimulatePlay (fuel + 1) player roundIndex
          ⟨(List.finRange AmountOfDice).map rolled ++ rest, inputs⟩
        = Res.ok (⟨Function.update player.roundScores r (wrapInt (scoringDice rolled).sum),
            fun _ => 0, fun _ => false, player.playerName⟩, ⟨rest, inputs⟩) := by
  have hpop : populateRoundDice player ((List.finRange AmountOfDice).map rolled ++ rest)
      = Res.ok ({ player with currentRoundDice := rolled }, rest) := by
    unfold populateRoundDice
    rw [finRange_five]
    simp only [populateFrom, hclear, Bool.not_false, if_true, List.map_cons, List.map_nil,
      List.cons_append, List.nil_append, getDieRoll, Res.ok.injEq, Prod.mk.injEq, and_true]
    congr 1
    funext i
    rcases five_slots i with rfl | rfl | rfl | rfl | rfl <;> simp [Function.update]
  have hu : unkeptCount { player with currentRoundDice := rolled } = 5 := by
    unfold unkeptCount
    simp [hclear]
  have hnf : hasFinishedTurn player = false := by
    apply not_finished_of_unkept
    have : unkeptCount player = 5 := by
      unfold unkeptCount
      simp [hclear]
    omega
  have hch : chooseKeptDice SimulatePlay { player with currentRoundDice := rolled } inputs
      = Res.ok ({ player with currentRoundDice := rolled, keptDiceRoll := fun _ => true },
          inputs) := by
    unfold chooseKeptDice
    rw [not_finished_of_unkept _ (by omega), getUnkeptDiceRolls_eq, hu, markAllDiceAsKept_eq]
    simp only [Bool.false_eq_true, if_false]
    rfl
  have hrej : keepCountRejected SimulatePlay { player with currentRoundDice := rolled } inputs
      = false := by
    unfold keepCountRejected
    rw [not_finished_of_unkept _ (by omega), getUnkeptDiceRolls_eq, hu]
    rfl
  have hloop : takeTurnLoop SimulatePlay (fuel + 1) player
        ⟨(List.finRange AmountOfDice).map rolled ++ rest, inputs⟩
      = Res.ok ⟨{ player with currentRoundDice := rolled, keptDiceRoll := fun _ => true },
          ⟨rest, inputs⟩, 1, 0⟩ := by
    unfold takeTurnLoop
    simp only [hnf, Bool.false_eq_true, if_false, hpop, hch]
    rw [takeTurnLoop_of_finished _ _ _ _ (by rw [hasFinishedTurn_iff]; intro i; rfl)]
    simp [hrej]
  refine ⟨hloop, ?_⟩
  obtain ⟨r, hr, hidx⟩ := roundSlot roundIndex h1 h2
  refine ⟨r, hr, ?_⟩
  unfold takeTurn
  rw [hloop]
  simp only
  unfold tallyRoundScore
  rw [hidx]
  simp only [clearRound_eq, tallyDice_eq]

/-- Witness for C18: a fresh player rolling `4, 4, 3, 6, 2` in round 2 scores
11 after one pass; the sixth value of the die source is not drawn. -/
theorem simulated_turn_is_one_pass_witness :
    ∃ (e : LoopExit) (played : Player),
      takeTurnLoop SimulatePlay 1 freshPlayer ⟨[4, 4, 3, 6, 2, 5], [[120, 10]]⟩ = Res.ok e ∧
      e.iterations = 1 ∧ e.world.rolls = [5] ∧ e.world.inputs = [[120, 10]] ∧
      takeTurn SimulatePlay 1 freshPlayer 2 ⟨[4, 4, 3, 6, 2, 5], [[120, 10]]⟩
        = Res.ok (played, ⟨[5], [[120, 10]]⟩) ∧
      (List.finRange AmountOfRounds).map played.roundScores = [0, 11, 0, 0] := by
  have h := simulated_turn_is_one_pass 0 freshPlayer 2
    (fun i => [4, 4, 3, 6, 2].getD i 0) [5] [[120, 10]] (by decide) (by decide)
    (fun _ => rfl)
  obtain ⟨hloop, r, -, hturn⟩ := h
  exact ⟨_, _, hloop, rfl, rfl, rfl, rfl, by decide⟩

/-! ## Starter tracking -/

/-- C13. For every game and die stream on which `getRoundPlayerOrder`
returns the order `order`: the first entry is a player `s` whose
`playerHasStarted` flag was false and is now true; every other
`playerHasStarted` flag, the players, `roundWinner`, `roundIndex` and
`gameWinner` are unchanged; in particular the players placed in the slots
`1..AmountOfPlayers-1` are not marked as started by the call. -/
theorem getRoundPlayerOrder_marks_only_starter (game : Game) (rolls : List Int)
    (order : Fin AmountOfPlayers → Int) (game2 : Game) (rest : List Int)
    (h : getRoundPlayerOrder game rolls = Res.ok (order, game2, rest)) :
    ∃ s : Fin AmountOfPlayers, order 0 = ((s : Nat) : Int) ∧
      game.playerHasStarted s = false ∧ game2.playerHasStarted s = true ∧
      (∀ t, t ≠ s → game2.playerHasStarted t = game.playerHasStarted t) ∧
      game2.players = game.players ∧ game2.roundWinner = game.roundWinner ∧
      game2.roundIndex = game.roundIndex ∧ game2.gameWinner = game.gameWinner ∧
      ∀ i, i ≠ 0 → ∀ t : Fin AmountOfPlayers, order i = ((t : Nat) : Int) →
        game2.playerHasStarted t = game.playerHasStarted t := by
  obtain ⟨s, y1, y2, y3, hs, hg2, o0, o1, o2, o3, n1, n2, n3, -⟩ :=
    getRoundPlayerOrder_ok game rolls order game2 rest h
  have hother : ∀ t, t ≠ s → game2.playerHasStarted t = game.playerHasStarted t := by
    intro t ht
    rw [hg2]
    simp [Function.update_noteq ht]
  refine ⟨s, o0, hs, ?_, hother, ?_, ?_, ?_, ?_, ?_⟩
  · rw [hg2]
    simp
  · rw [hg2]
  · rw [hg2]
  · rw [hg2]
  · rw [hg2]
  · intro i hi t ht
    apply hother
    rintro rfl
    have slots : ∀ i : Fin AmountOfPlayers, i = 0 ∨ i = 1 ∨ i = 2 ∨ i = 3 := by decide
    rcases slots i with rfl | rfl | rfl | rfl
    · exact hi rfl
    · exact n1 (by rw [← o1, ht])
    · exact n2 (by rw [← o2, ht])
    · exact n3 (by rw [← o3, ht])

/-- Witness for C13: in a fresh game the rolls `2, 2, 4, 1, 4, 3` give the
order `[1, 3, 0, 2]` and mark player 1 only. -/
theorem getRoundPlayerOrder_marks_only_starter_witness :
    ∃ order game2 rest,
      getRoundPlayerOrder (fixtureGame 0 []) [2, 2, 4, 1, 4, 3] = Res.ok (order, game2, rest) ∧
      (List.finRange AmountOfPlayers).map order = [1, 3, 0, 2] ∧
      (List.finRange AmountOfPlayers).map game2.playerHasStarted = [false, true, false, false] ∧
      game2.roundIndex = (fixtureGame 0 []).roundIndex := by
  have h : ∃ s, _ := getRoundPlayerOrder_marks_only_starter (fixtureGame 0 [])
    [2, 2, 4, 1, 4, 3] _ _ _ rfl
  obtain ⟨s, -, -, -, -, -, -, hri, -⟩ := h
  exact ⟨_, _, _, rfl, by decide, by decide, hri⟩

theorem pickStarter_all_started (game : Game) (hall : ∀ i, game.playerHasStarted i = true) :
    ∀ (rolls : List Int) (x : Int), (∀ r ∈ rolls, 1 ≤ r ∧ r ≤ 4) → 0 ≤ x → x ≤ 3 →
      pickStarter game x rolls = Res.blocked := by
  intro rolls
  induction rolls with
  | nil =>
    intro x _ h0 h3
    have hlt : x.toNat < AmountOfPlayers := by
      show x.toNat < 4
      omega
    have hi : toIndex AmountOfPlayers x = some ⟨x.toNat, hlt⟩ := by
      rw [toIndex_eq_some]
      simp only
      omega
    unfold pickStarter
    simp [hi, hall]
  | cons r rs ih =>
    intro x hr h0 h3
    have hlt : x.toNat < AmountOfPlayers := by
      show x.toNat < 4
      omega
    have hi : toIndex AmountOfPlayers x = some ⟨x.toNat, hlt⟩ := by
      rw [toIndex_eq_some]
      simp only
      omega
    have hr1 := hr r (List.mem_cons_self _ _)
    unfold pickStarter
    simp only [hi, hall, if_true]
    rw [goSub_one_of_player_roll r hr1]
    exact ih _ (fun q hq => hr q (List.mem_cons_of_mem _ hq)) (by omega) (by omega)

theorem roundOrders_length_le (streams : List (List Int)) (game : Game)
    (log : List OrderCall) (game2 : Game)
    (h : roundOrders streams game = Res.ok (log, game2)) :
    streams.length ≤ AmountOfPlayers := by
  obtain ⟨hlen, hall, hpw⟩ := roundOrders_starters streams game log game2 h
  have hnd : (log.map (fun c => c.order 0)).Nodup := by
    unfold List.Nodup
    rw [List.pairwise_map]
    exact hpw
  have hsub : log.map (fun c => c.order 0) ⊆ [0, 1, 2, 3] := by
    intro x hx
    obtain ⟨c, hc, rfl⟩ := List.mem_map.1 hx
    obtain ⟨s, hs, -⟩ := hall c hc
    rw [hs]
    have key : ∀ t : Fin AmountOfPlayers, (((t : Nat) : Int)) ∈ [(0 : Int), 1, 2, 3] := by
      decide
    exact key s
  have hle := (List.subperm_of_subset hnd hsub).length_le
  simp only [List.length_map, List.length_cons, List.length_nil] at hle
  show streams.length ≤ 4
  omega

/-- C14. The starter tracking never resets.  A returning
`getRoundPlayerOrder` leaves every `playerHasStarted` flag that was true
true.  In a game where all `AmountOfPlayers` flags are true the call returns
for no stream of die rolls, and on every stream of rolls in
`[1, AmountOfPlayers]` it is still waiting for a roll when the stream is used
up: the starter-selection loop has no exit.  Hence no run of more than
`AmountOfPlayers` successive calls returns: a fifth call in a game never
produces an order. -/
theorem starter_tracking_never_resets :
    (∀ (game : Game) (rolls : List Int) (order : Fin AmountOfPlayers → Int) (game2 : Game)
      (rest : List Int), getRoundPlayerOrder game rolls = Res.ok (order, game2, rest) →
      ∀ i, game.playerHasStarted i = true → game2.playerHasStarted i = true) ∧
    (∀ game : Game, (∀ i, game.playerHasStarted i = true) →
      (∀ (rolls : List Int) (res : (Fin AmountOfPlayers → Int) × Game × List Int),
        getRoundPlayerOrder game rolls ≠ Res.ok res) ∧
      ∀ rolls : List Int, (∀ r ∈ rolls, 1 ≤ r ∧ r ≤ (AmountOfPlayers : Int)) →
        getRoundPlayerOrder game rolls = Res.blocked) ∧
    (∀ (streams : List (List Int)) (game : Game), AmountOfPlayers < streams.length →
      ∀ res : List OrderCall × Game, roundOrders streams game ≠ Res.ok res) := by
  refine ⟨?_, ?_, ?_⟩
  · intro game rolls order game2 rest h i hi
    obtain ⟨s, y1, y2, y3, -, hg2, -⟩ := getRoundPlayerOrder_ok game rolls order game2 rest h
    rw [hg2]
    by_cases his : i = s
    · subst his
      simp
    · simpa [Function.update_noteq his] using hi
  · intro game hall
    constructor
    · intro rolls res h
      obtain ⟨order, game2, rest⟩ := res
      obtain ⟨s, y1, y2, y3, hs, -⟩ := getRoundPlayerOrder_ok game rolls order game2 rest h
      rw [hall s] at hs
      exact Bool.noConfusion hs
    · intro rolls hr
      unfold getRoundPlayerOrder
      cases rolls with
      | nil => rfl
      | cons r rs =>
        have hr1 : 1 ≤ r ∧ r ≤ 4 := hr r (List.mem_cons_self _ _)
        simp only [getDieRoll]
        rw [goSub_one_of_player_roll r hr1,
          pickStarter_all_started game hall rs (r - 1)
            (fun q hq => hr q (List.mem_cons_of_mem _ hq)) (by omega) (by omega)]
  · intro streams game hlen res h
    obtain ⟨log, game2⟩ := res
    have hle : streams.length ≤ 4 := roundOrders_length_le streams game log game2 h
    have hlt : 4 < streams.length := hlen
    omega

/-- Witness for C14: with every player marked, six rolls are drawn and the
call is still waiting; and five calls from a fresh game do not return. -/
theorem starter_tracking_never_resets_witness :
    getRoundPlayerOrder allStartedGame [1, 2, 3, 4, 1, 2] = Res.blocked ∧
    roundOrders [[1, 2, 3, 4], [1, 2, 1, 3, 4], [3, 1, 2, 4], [4, 1, 2, 3], [1, 2, 3, 4]]
      (fixtureGame 0 []) = Res.blocked ∧
    ∀ res : List OrderCall × Game,
      roundOrders [[1, 2, 3, 4], [1, 2, 1, 3, 4], [3, 1, 2, 4], [4, 1, 2, 3], [1, 2, 3, 4]]
        (fixtureGame 0 []) ≠ Res.ok res :=
  ⟨(starter_tracking_never_resets.2.1 allStartedGame (fun _ => rfl)).2 [1, 2, 3, 4, 1, 2]
      (by decide),
    rfl,
    starter_tracking_never_resets.2.2
      [[1, 2, 3, 4], [1, 2, 1, 3, 4], [3, 1, 2, 4], [4, 1, 2, 3], [1, 2, 3, 4]]
      (fixtureGame 0 []) (by decide)⟩

/-! ## The die-index prompt -/

theorem acceptedIndex_some (p : Player) (input : Line) (i : Fin AmountOfDice)
    (h : acceptedIndex p input = some i) :
    lineNumber input = some (((i : Nat) : Int) + 1) ∧ p.keptDiceRoll i = false := by
  unfold acceptedIndex at h
  have := List.find?_some h
  simpa using this

theorem acceptedIndex_none (p : Player) (input : Line) :
    acceptedIndex p input = none ↔
      ∀ i : Fin AmountOfDice,
        ¬ (lineNumber input = some (((i : Nat) : Int) + 1) ∧ p.keptDiceRoll i = false) := by
  unfold acceptedIndex
  rw [List.find?_eq_none]
  simp

theorem getValidatedChoiceIndex_accept (p : Player) (input : Line) (rest : List Line)
    (i : Fin AmountOfDice) (h : acceptedIndex p input = some i) :
    getValidatedChoiceIndex p (input :: rest) = Res.ok (((i : Nat) : Int) + 1, rest) ∧
    toIndex AmountOfDice (goSub (((i : Nat) : Int) + 1) 1) = some i := by
  obtain ⟨hn, hk⟩ := acceptedIndex_some p input i h
  have hi : (i : Nat) < 5 := i.isLt
  have hw : goSub (((i : Nat) : Int) + 1) 1 = ((i : Nat) : Int) := by
    unfold goSub
    rw [wrapInt_of_fits _ (by omega) (by omega)]
    omega
  have hidx : toIndex AmountOfDice (goSub (((i : Nat) : Int) + 1) 1) = some i := by
    rw [hw, toIndex_eq_some]
  refine ⟨?_, hidx⟩
  unfold lineNumber at hn
  unfold getValidatedChoiceIndex
  cases hb : input[byteSize - 1]? with
  | none => simp [hb] at hn
  | some b =>
    simp only [hb] at hn ⊢
    have hv : isValidIndexChoice (((i : Nat) : Int) + 1) 1 (AmountOfDice : Int) = true := by
      rw [isValidIndexChoice_iff]
      constructor
      · omega
      · show ((i : Nat) : Int) + 1 ≤ 5
        omega
    simp only [hn, hv, if_true, hidx, hk, Bool.not_false]

theorem getValidatedChoiceIndex_skip (p : Player) (input : Line) (rest : List Line)
    (hne : input ≠ []) (h : acceptedIndex p input = none) :
    getValidatedChoiceIndex p (input :: rest) = getValidatedChoiceIndex p rest := by
  rw [acceptedIndex_none] at h
  obtain ⟨b, tl, rfl⟩ := List.exists_cons_of_ne_nil hne
  have hb : (b :: tl)[byteSize - 1]? = some b := by
    rw [byteSize_eq]
    simp
  have hln : lineNumber (b :: tl) = atoi (runeString b) := by
    unfold lineNumber
    rw [hb]
  conv_lhs => unfold getValidatedChoiceIndex
  simp only [hb]
  cases ha : atoi (runeString b) with
  | none => rfl
  | some num =>
    simp only
    by_cases hv : isValidIndexChoice num 1 (AmountOfDice : Int) = true
    · simp only [hv, if_true]
      have hv2 : 1 ≤ num ∧ num ≤ 5 := (isValidIndexChoice_iff num 1 5).1 hv
      have hw : goSub num 1 = num - 1 := by
        unfold goSub
        apply wrapInt_of_fits <;> omega
      have hlt : (num - 1).toNat < AmountOfDice := by
        show (num - 1).toNat < 5
        omega
      have hidx : toIndex AmountOfDice (goSub num 1) = some ⟨(num - 1).toNat, hlt⟩ := by
        rw [hw, toIndex_eq_some]
        simp only
        omega
      simp only [hidx]
      have hkept : p.keptDiceRoll ⟨(num - 1).toNat, hlt⟩ = true := by
        cases hk : p.keptDiceRoll ⟨(num - 1).toNat, hlt⟩ with
        | true => rfl
        | false =>
          exfalso
          apply h ⟨(num - 1).toNat, hlt⟩
          refine ⟨?_, hk⟩
          rw [hln, ha]
          simp only [Option.some.injEq]
          omega
      simp only [hkept, Bool.not_true, Bool.false_eq_true, if_false]
    · simp only [hv, Bool.false_eq_true, if_false]

theorem exhaustLoop_accept (n : Nat) (p : Player) (input : Line) (rest : List Line)
    (i : Fin AmountOfDice) (h : acceptedIndex p input = some i) :
    exhaustLoop (n + 1) p (input :: rest)
      = exhaustLoop n { p with keptDiceRoll := Function.update p.keptDiceRoll i true } rest := by
  obtain ⟨hg, hidx⟩ := getValidatedChoiceIndex_accept p input rest i h
  conv_lhs => unfold exhaustLoop
  simp only [hg, hidx]

theorem exhaustLoop_skip (n : Nat) (p : Player) (input : Line) (rest : List Line)
    (hne : input ≠ []) (h : acceptedIndex p input = none) :
    exhaustLoop (n + 1) p (input :: rest) = exhaustLoop (n + 1) p rest := by
  conv_lhs => unfold exhaustLoop
  conv_rhs => unfold exhaustLoop
  rw [getValidatedChoiceIndex_skip p input rest hne h]

theorem exhaustLoop_returns (inputs : List Line) (hne : ∀ input ∈ inputs, input ≠ []) :
    ∀ (n : Nat) (p : Player), n ≤ acceptCount p inputs →
      ∃ res, exhaustLoop n p inputs = Res.ok res := by
  induction inputs with
  | nil =>
    intro n p h
    simp only [acceptCount, Nat.le_zero] at h
    subst h
    exact ⟨_, rfl⟩
  | cons input rest ih =>
    intro n p h
    have hne2 : ∀ x ∈ rest, x ≠ [] := fun x hx => hne x (List.mem_cons_of_mem _ hx)
    cases n with
    | zero => exact ⟨_, rfl⟩
    | succ n =>
      unfold acceptCount at h
      cases ha : acceptedIndex p input with
      | none =>
        simp only [ha] at h
        rw [exhaustLoop_skip n p input rest (hne input (List.mem_cons_self _ _)) ha]
        exact ih hne2 _ _ h
      | some i =>
        simp only [ha] at h
        rw [exhaustLoop_accept n p input rest i ha]
        exact ih hne2 _ _ (by omega)

/-- C12. Partial keep.  For every player with `u` unkept dice and a keep
count `k` with `1 ≤ k < u` (so `u ≥ 2`):
first, on every list of non-empty input lines of which at least `k` name, when
they are read, a die in `[1, AmountOfDice]` that is unkept at that moment,
`exhaustUntilAllChosenDiceKept(k)` returns;
second, whenever it returns, the unkept count is `u - k` (still positive),
every die kept before is still kept, so exactly `k` previously unkept dice
were marked, dice values, scores and name are unchanged, and at least `k`
lines were read;
third, at each prompt a line whose number (as read by `getUserChoice` and
`strconv.Atoi`) is `i + 1` for an unkept die `i` marks that die and leaves
`k - 1` to ask for, while a non-empty line that names no unkept die (not a
number, out of range, or a die already kept) is skipped with the state and
the number still asked for unchanged. -/
theorem partial_keep_marks_exactly_k (player : Player) (k : Int) (inputs : List Line)
    (hk1 : 1 ≤ k) (hk2 : k < ((unkeptCount player : Nat) : Int)) :
    ((∀ input ∈ inputs, input ≠ []) → k.toNat ≤ acceptCount player inputs →
      ∃ chosen rest, exhaustUntilAllChosenDiceKept player k inputs = Res.ok (chosen, rest)) ∧
    (∀ (chosen : Player) (rest : List Line),
      exhaustUntilAllChosenDiceKept player k inputs = Res.ok (chosen, rest) →
      ((unkeptCount chosen : Nat) : Int) = ((unkeptCount player : Nat) : Int) - k ∧
      0 < unkeptCount chosen ∧
      (∀ i, player.keptDiceRoll i = true → chosen.keptDiceRoll i = true) ∧
      chosen.currentRoundDice = player.currentRoundDice ∧
      chosen.roundScores = player.roundScores ∧ chosen.playerName = player.playerName ∧
      (rest.length : Int) + k ≤ inputs.length) ∧
    (∀ (n : Nat) (p : Player) (input : Line) (rest : List Line),
      (∀ i, acceptedIndex p input = some i →
        lineNumber input = some (((i : Nat) : Int) + 1) ∧ p.keptDiceRoll i = false ∧
        exhaustLoop (n + 1) p (input :: rest)
          = exhaustLoop n { p with keptDiceRoll := Function.update p.keptDiceRoll i true }
              rest) ∧
      (acceptedIndex p input = none → input ≠ [] →
        exhaustLoop (n + 1) p (input :: rest) = exhaustLoop (n + 1) p rest) ∧
      (acceptedIndex p input = none ↔
        ∀ i : Fin AmountOfDice,
          ¬ (lineNumber input = some (((i : Nat) : Int) + 1) ∧ p.keptDiceRoll i = false))) := by
  refine ⟨?_, ?_, ?_⟩
  · intro hne hcount
    obtain ⟨⟨chosen, rest⟩, hres⟩ := exhaustLoop_returns inputs hne k.toNat player hcount
    exact ⟨chosen, rest, hres⟩
  · intro chosen rest h
    unfold exhaustUntilAllChosenDiceKept at h
    obtain ⟨a, b, c, d, e, f⟩ := exhaustLoop_ok _ _ _ _ _ h
    refine ⟨by omega, by omega, d, a, b, c, by omega⟩
  · intro n p input rest
    refine ⟨?_, ?_, acceptedIndex_none p input⟩
    · intro i hi
      obtain ⟨h1, h2⟩ := acceptedIndex_some p input i hi
      exact ⟨h1, h2, exhaustLoop_accept n p input rest i hi⟩
    · intro hnone hne
      exact exhaustLoop_skip n p input rest hne hnone

/-- Witness for C12: five dice unkept, keep count 2, and the lines `x`, `7`,
`3`, `3`, `1`, `2`: dice 3 and 1 are marked, the second `3` is skipped as
already kept, and the line `2` is not read. -/
theorem partial_keep_marks_exactly_k_witness :
    ∃ chosen rest,
      exhaustUntilAllChosenDiceKept (fixturePlayer [2, 6, 1, 3, 5] []) 2
        [[120, 10], [55, 10], [51, 10], [51, 10], [49, 10], [50, 10]] = Res.ok (chosen, rest) ∧
      rest = [[50, 10]] ∧
      (List.finRange AmountOfDice).map chosen.keptDiceRoll = [true, false, true, false, false] ∧
      ((unkeptCount chosen : Nat) : Int)
        = ((unkeptCount (fixturePlayer [2, 6, 1, 3, 5] []) : Nat) : Int) - 2 := by
  have h := (partial_keep_marks_exactly_k (fixturePlayer [2, 6, 1, 3, 5] []) 2
    [[120, 10], [55, 10], [51, 10], [51, 10], [49, 10], [50, 10]] (by decide) (by decide)).2.1
    _ _ rfl
  exact ⟨_, _, rfl, rfl, by decide, h.1⟩

/-! ## The round -/

theorem takeTurns_cons_ok (sim : Bool) (fuel : Nat) (order : Fin AmountOfPlayers → Int)
    (i : Fin AmountOfPlayers) (is : List (Fin AmountOfPlayers)) (g : Game) (w : World)
    (res : Game × World) (h : takeTurns sim fuel order (i :: is) g w = Res.ok res) :
    ∃ (j : Fin AmountOfPlayers) (played : Player) (w2 : World),
      order i = ((j : Nat) : Int) ∧
      takeTurn sim fuel (g.players j) (goAdd g.roundIndex 1) w = Res.ok (played, w2) ∧
      takeTurns sim fuel order is { g with players := Function.update g.players j played } w2
        = Res.ok res := by
  unfold takeTurns at h
  cases hi : toIndex AmountOfPlayers (order i) with
  | none => simp [hi] at h
  | some j =>
    simp only [hi] at h
    cases ht : takeTurn sim fuel (g.players j) (goAdd g.roundIndex 1) w with
    | panic => simp [ht] at h
    | blocked => simp [ht] at h
    | timeout => simp [ht] at h
    | ok v =>
      obtain ⟨played, w2⟩ := v
      simp only [ht] at h
      exact ⟨j, played, w2, (toIndex_eq_some _ _ _).1 hi, ht, h⟩

theorem next_round_number (n : Fin AmountOfRounds) :
    goAdd (((n : Nat) : Int)) 1 = ((n : Nat) : Int) + 1 ∧
    toIndex AmountOfRounds (goSub (((n : Nat) : Int) + 1) 1) = some n := by
  have hn : (n : Nat) < 4 := n.isLt
  constructor
  · unfold goAdd
    apply wrapInt_of_fits <;> omega
  · have hw : goSub (((n : Nat) : Int) + 1) 1 = ((n : Nat) : Int) := by
      unfold goSub
      rw [wrapInt_of_fits _ (by omega) (by omega)]
      omega
    rw [hw, toIndex_eq_some]

/-- What a returning `playRound` has done, step by step. -/
theorem playRound_ok (sim : Bool) (fuel : Nat) (game : Game) (w : World) (game' : Game)
    (w' : World) (n : Fin AmountOfRounds) (hn : game.roundIndex = ((n : Nat) : Int))
    (h : playRound sim fuel game w = Res.ok (game', w')) :
    ∃ (order : Fin AmountOfPlayers → Int) (game1 : Game) (rest : List Int)
      (j0 j1 j2 j3 : Fin AmountOfPlayers) (p0 p1 p2 p3 : Player) (w1 w2 w3 : World)
      (game3 : Game),
      getRoundPlayerOrder game w.rolls = Res.ok (order, game1, rest) ∧
      order 0 = ((j0 : Nat) : Int) ∧ order 1 = ((j1 : Nat) : Int) ∧
      order 2 = ((j2 : Nat) : Int) ∧ order 3 = ((j3 : Nat) : Int) ∧
      j0 ≠ j1 ∧ j0 ≠ j2 ∧ j0 ≠ j3 ∧ j1 ≠ j2 ∧ j1 ≠ j3 ∧ j2 ≠ j3 ∧
      takeTurn sim fuel (game.players j0) (((n : Nat) : Int) + 1) ⟨rest, w.inputs⟩
        = Res.ok (p0, w1) ∧
      takeTurn sim fuel (game.players j1) (((n : Nat) : Int) + 1) w1 = Res.ok (p1, w2) ∧
      takeTurn sim fuel (game.players j2) (((n : Nat) : Int) + 1) w2 = Res.ok (p2, w3) ∧
      takeTurn sim fuel (game.players j3) (((n : Nat) : Int) + 1) w3 = Res.ok (p3, w') ∧
      game'.players j0 = p0 ∧ game'.players j1 = p1 ∧ game'.players j2 = p2 ∧
      game'.players j3 = p3 ∧
      calculateRoundWinner { game with players := game'.players } = Res.ok game3 ∧
      game'.roundWinner = game3.roundWinner ∧
      game'.playerHasStarted = game1.playerHasStarted ∧
      game'.roundIndex = ((n : Nat) : Int) + 1 ∧ game'.gameWinner = game.gameWinner := by
  obtain ⟨hadd, -⟩ := next_round_number n
  unfold playRound at h
  cases hg : getRoundPlayerOrder game w.rolls with
  | panic => simp [hg] at h
  | blocked => simp [hg] at h
  | timeout => simp [hg] at h
  | ok v =>
    obtain ⟨order, game1, rest⟩ := v
    simp only [hg] at h
    obtain ⟨s, y1, y2, y3, -, hg1, o0, o1, o2, o3, n1, n2, n3, n4, n5, n6, -⟩ :=
      getRoundPlayerOrder_ok game w.rolls order game1 rest hg
    cases ht : takeTurns sim fuel order (List.finRange AmountOfPlayers) game1
        ⟨rest, w.inputs⟩ with
    | panic => simp [ht] at h
    | blocked => simp [ht] at h
    | timeout => simp [ht] at h
    | ok v2 =>
      obtain ⟨game2, wend⟩ := v2
      simp only [ht] at h
      rw [finRange_four] at ht
      obtain ⟨j0, p0, w1, e0, t0, ht⟩ := takeTurns_cons_ok _ _ _ _ _ _ _ _ ht
      obtain ⟨j1, p1, w2, e1, t1, ht⟩ := takeTurns_cons_ok _ _ _ _ _ _ _ _ ht
      obtain ⟨j2, p2, w3, e2, t2, ht⟩ := takeTurns_cons_ok _ _ _ _ _ _ _ _ ht
      obtain ⟨j3, p3, w4, e3, t3, ht⟩ := takeTurns_cons_ok _ _ _ _ _ _ _ _ ht
      simp only [takeTurns, Res.ok.injEq, Prod.mk.injEq] at ht
      obtain ⟨hgame2, hwend⟩ := ht
      have d01 : j0 ≠ j1 := by
        intro e
        apply n1
        rw [← o1, e1, ← e, ← e0, o0]
      have d02 : j0 ≠ j2 := by
        intro e
        apply n2
        rw [← o2, e2, ← e, ← e0, o0]
      have d03 : j0 ≠ j3 := by
        intro e
        apply n3
        rw [← o3, e3, ← e, ← e0, o0]
      have d12 : j1 ≠ j2 := by
        intro e
        apply n4
        rw [← o2, e2, ← e, ← e1, o1]
      have d13 : j1 ≠ j3 := by
        intro e
        apply n5
        rw [← o3, e3, ← e, ← e1, o1]
      have d23 : j2 ≠ j3 := by
        intro e
        apply n6
        rw [← o3, e3, ← e, ← e2, o2]
      have hri : game1.roundIndex = ((n : Nat) : Int) := by
        rw [hg1]
        exact hn
      have hpl : game1.players = game.players := by
        rw [hg1]
      simp only [hri, hadd, hpl] at t0 t1 t2 t3
      rw [Function.update_noteq d01.symm] at t1
      rw [Function.update_noteq d12.symm, Function.update_noteq d02.symm] at t2
      rw [Function.update_noteq d23.symm, Function.update_noteq d13.symm,
        Function.update_noteq d03.symm] at t3
      have hidx2 : toIndex AmountOfRounds game2.roundIndex = some n := by
        rw [← hgame2]
        simp only [hri]
        rw [toIndex_eq_some]
      unfold calculateRoundWinner at h
      simp only [hidx2, Res.ok.injEq, Prod.mk.injEq] at h
      obtain ⟨hgame', hw'⟩ := h
      subst hw'
      subst hwend
      have hplayers : game'.players = game2.players := by
        rw [← hgame']
      have hp2 : game2.players
          = Function.update (Function.update (Function.update
              (Function.update game.players j0 p0) j1 p1) j2 p2) j3 p3 := by
        rw [← hgame2]
        simp only [hpl]
      refine ⟨order, game1, rest, j0, j1, j2, j3, p0, p1, p2, p3, w1, w2, w3,
        { game with
          players := game'.players
          roundWinner := Function.update game.roundWinner n
            ((List.finRange AmountOfPlayers).foldl
              (roundWinnerStep { game with players := game'.players } n) (0, MaxRoundScore)).1 },
        rfl, ?_, ?_, ?_, ?_, d01, d02, d03, d12, d13, d23, t0, t1, t2, t3, ?_, ?_, ?_, ?_,
        ?_, ?_, ?_, ?_, ?_⟩
      · rw [← e0]
      · rw [← e1]
      · rw [← e2]
      · rw [← e3]
      · rw [hplayers, hp2]
        simp [Function.update_noteq d01, Function.update_noteq d02, Function.update_noteq d03]
      · rw [hplayers, hp2]
        simp [Function.update_noteq d12, Function.update_noteq d13]
      · rw [hplayers, hp2]
        simp [Function.update_noteq d23]
      · rw [hplayers, hp2]
        simp
      · unfold calculateRoundWinner
        simp only [hn, (toIndex_eq_some AmountOfRounds _ n).2 rfl]
      · have hstep : roundWinnerStep game2 n
            = roundWinnerStep { game with players := game'.players } n := by
          funext acc i
          unfold roundWinnerStep
          rw [hplayers]
        have hrw : game2.roundWinner = game.roundWinner := by
          rw [← hgame2, hg1]
        have hrwin : game'.roundWinner = Function.update game2.roundWinner n
            ((List.finRange AmountOfPlayers).foldl (roundWinnerStep game2 n)
              (0, MaxRoundScore)).1 := by
          rw [← hgame']
        rw [hrwin, hstep, hrw]
      · rw [← hgame', ← hgame2]
      · rw [← hgame']
        simp only
        rw [← hgame2]
        simp only [hri, hadd]
      · rw [← hgame', ← hgame2, hg1]

/-- The outcome of `calculateRoundWinner` when no score exceeds the sentinel. -/
theorem calculateRoundWinner_lowest (game : Game) (r : Fin AmountOfRounds) (game3 : Game)
    (hr : game.roundIndex = ((r : Nat) : Int))
    (h : calculateRoundWinner game = Res.ok game3) :
    (∀ q, q ≠ r → game3.roundWinner q = game.roundWinner q) ∧
    ((∀ i, (game.players i).roundScores r ≤ MaxRoundScore) →
      ∃ v : Fin AmountOfPlayers, game3.roundWinner r = ((v : Nat) : Int) ∧
        (∀ j, (game.players v).roundScores r ≤ (game.players j).roundScores r) ∧
        ∀ j, (game.players j).roundScores r = (game.players v).roundScores r → v ≤ j) := by
  unfold calculateRoundWinner at h
  rw [(toIndex_eq_some AmountOfRounds game.roundIndex r).2 hr] at h
  simp only [Res.ok.injEq] at h
  subst h
  constructor
  · intro q hq
    simp [Function.update_noteq hq]
  · intro hs
    obtain ⟨v, hv, hmin, hfirst⟩ :=
      lowest_fold (fun i => (game.players i).roundScores r) MaxRoundScore hs
    refine ⟨v, ?_, hmin, hfirst⟩
    have hstep : roundWinnerStep game r
        = fun (acc : Int × Int) (i : Fin 4) =>
            if (game.players i).roundScores r < acc.2 then
              (((i : Nat) : Int), (game.players i).roundScores r) else acc := by
      funext acc i
      rfl
    simp only [Function.update_same]
    rw [hstep, hv]

theorem four_distinct_cover :
    ∀ j0 j1 j2 j3 : Fin AmountOfPlayers,
      j0 ≠ j1 → j0 ≠ j2 → j0 ≠ j3 → j1 ≠ j2 → j1 ≠ j3 → j2 ≠ j3 →
      ∀ i : Fin AmountOfPlayers, i = j0 ∨ i = j1 ∨ i = j2 ∨ i = j3 := by
  decide

/-- C15. For every game whose `roundIndex` is a round index `n` and every
run of `playRound` that completes:
the four turns were taken by four different players, so by every player once,
each with round number `n + 1`, from that player's state before the round and
on the die source and input the previous turn left, and the game holds the
players these turns returned;
so every player's `roundScores[n]` is the tally of that player's own dice at
the exit of a roll-keep loop run from that player's state;
no `roundScores` entry and no `roundWinner` entry at an index other than `n`
is changed;
`roundWinner[n]` is what `calculateRoundWinner` computes from the players
after the turns, the lowest index with the minimum `roundScores[n]` whenever
no such score exceeds `MaxRoundScore`;
and `roundIndex` becomes `n + 1`. -/
theorem playRound_plays_one_turn_each (simulatePlay : Bool) (fuel : Nat) (game : Game)
    (w : World) (game' : Game) (w' : World) (n : Fin AmountOfRounds)
    (hn : game.roundIndex = ((n : Nat) : Int))
    (h : playRound simulatePlay fuel game w = Res.ok (game', w')) :
    (∃ (j0 j1 j2 j3 : Fin AmountOfPlayers) (w0 w1 w2 w3 : World),
      (j0 ≠ j1 ∧ j0 ≠ j2 ∧ j0 ≠ j3 ∧ j1 ≠ j2 ∧ j1 ≠ j3 ∧ j2 ≠ j3) ∧
      (∀ i : Fin AmountOfPlayers, i = j0 ∨ i = j1 ∨ i = j2 ∨ i = j3) ∧
      w0.inputs = w.inputs ∧
      takeTurn simulatePlay fuel (game.players j0) (((n : Nat) : Int) + 1) w0
        = Res.ok (game'.players j0, w1) ∧
      takeTurn simulatePlay fuel (game.players j1) (((n : Nat) : Int) + 1) w1
        = Res.ok (game'.players j1, w2) ∧
      takeTurn simulatePlay fuel (game.players j2) (((n : Nat) : Int) + 1) w2
        = Res.ok (game'.players j2, w3) ∧
      takeTurn simulatePlay fuel (game.players j3) (((n : Nat) : Int) + 1) w3
        = Res.ok (game'.players j3, w')) ∧
    (∀ i : Fin AmountOfPlayers, ∃ (wi : World) (e : LoopExit),
      takeTurnLoop simulatePlay fuel (game.players i) wi = Res.ok e ∧
      (∀ d, e.player.keptDiceRoll d = true) ∧
      (game'.players i).roundScores n = wrapInt (scoringDice e.player.currentRoundDice).sum) ∧
    (∀ (i : Fin AmountOfPlayers) (r : Fin AmountOfRounds), r ≠ n →
      (game'.players i).roundScores r = (game.players i).roundScores r) ∧
    (∀ r : Fin AmountOfRounds, r ≠ n → game'.roundWinner r = game.roundWinner r) ∧
    (∃ game3 : Game,
      calculateRoundWinner { game with players := game'.players } = Res.ok game3 ∧
      game'.roundWinner n = game3.roundWinner n) ∧
    ((∀ i, (game'.players i).roundScores n ≤ MaxRoundScore) →
      ∃ v : Fin AmountOfPlayers, game'.roundWinner n = ((v : Nat) : Int) ∧
        (∀ j, (game'.players v).roundScores n ≤ (game'.players j).roundScores n) ∧
        ∀ j, (game'.players j).roundScores n = (game'.players v).roundScores n → v ≤ j) ∧
    game'.roundIndex = ((n : Nat) : Int) + 1 := by
  obtain ⟨order, game1, rest, j0, j1, j2, j3, p0, p1, p2, p3, w1, w2, w3, game3, -, -, -, -, -,
    d01, d02, d03, d12, d13, d23, t0, t1, t2, t3, q0, q1, q2, q3, hcalc, hrw, -, hri, -⟩ :=
    playRound_ok simulatePlay fuel game w game' w' n hn h
  obtain ⟨-, hidx⟩ := next_round_number n
  have cover := four_distinct_cover j0 j1 j2 j3 d01 d02 d03 d12 d13 d23
  obtain ⟨e0, l0, -, k0, s0⟩ := takeTurn_ok _ _ _ _ _ _ _ n hidx t0
  obtain ⟨e1, l1, -, k1, s1⟩ := takeTurn_ok _ _ _ _ _ _ _ n hidx t1
  obtain ⟨e2, l2, -, k2, s2⟩ := takeTurn_ok _ _ _ _ _ _ _ n hidx t2
  obtain ⟨e3, l3, -, k3, s3⟩ := takeTurn_ok _ _ _ _ _ _ _ n hidx t3
  obtain ⟨hframe, hlow⟩ := calculateRoundWinner_lowest { game with players := game'.players } n
    game3 hn hcalc
  refine ⟨⟨j0, j1, j2, j3, ⟨rest, w.inputs⟩, w1, w2, w3, ⟨d01, d02, d03, d12, d13, d23⟩, cover,
    rfl, ?_, ?_, ?_, ?_⟩, ?_, ?_, ?_, ⟨game3, hcalc, by rw [hrw]⟩, ?_, hri⟩
  · rw [q0]
    exact t0
  · rw [q1]
    exact t1
  · rw [q2]
    exact t2
  · rw [q3]
    exact t3
  · intro i
    rcases cover i with rfl | rfl | rfl | rfl
    · exact ⟨_, e0, l0, k0, by rw [q0, s0]; simp⟩
    · exact ⟨_, e1, l1, k1, by rw [q1, s1]; simp⟩
    · exact ⟨_, e2, l2, k2, by rw [q2, s2]; simp⟩
    · exact ⟨_, e3, l3, k3, by rw [q3, s3]; simp⟩
  · intro i r hr
    rcases cover i with rfl | rfl | rfl | rfl
    · rw [q0, s0]
      simp [Function.update_noteq hr]
    · rw [q1, s1]
      simp [Function.update_noteq hr]
    · rw [q2, s2]
      simp [Function.update_noteq hr]
    · rw [q3, s3]
      simp [Function.update_noteq hr]
  · intro r hr
    rw [hrw]
    exact hframe r hr
  · intro hs
    rw [hrw]
    exact hlow hs

/-- Witness for C15: the first round of a new game, played with
`SimulatePlay` on `firstRoundWorld`: the scores are `15, 7, 25, 10`, player 1
wins the round and `roundIndex` becomes 1. -/
theorem playRound_plays_one_turn_each_witness :
    ∃ game' w',
      playRound SimulatePlay 1 (NewGame zeroGame) firstRoundWorld = Res.ok (game', w') ∧
      (List.finRange AmountOfPlayers).map (fun i => (game'.players i).roundScores 0)
        = [15, 7, 25, 10] ∧
      game'.roundWinner 0 = 1 ∧ w'.rolls = [9] ∧
      game'.roundIndex = 1 := by
  have h := (playRound_plays_one_turn_each SimulatePlay 1 (NewGame zeroGame) firstRoundWorld
    _ _ 0 rfl rfl).2.2.2.2.2.2
  exact ⟨_, _, rfl, by decide, by decide, rfl, h⟩

/-- C16, evaluated.  `NewGame` assigns the players and nothing else, so in a
freshly constructed game `roundIndex` is 0, not 1; the first round played
stores its scores in `roundScores[0]` and its winner in `roundWinner[0]`, and
only then does `roundIndex` become 1. -/
theorem newGame_roundIndex_is_zero :
    (NewGame zeroGame).roundIndex = 0 ∧ (NewGame zeroGame).roundIndex ≠ 1 ∧
    (∀ game : Game, (NewGame game).roundIndex = game.roundIndex) ∧
    ∃ game' w',
      playRound SimulatePlay 1 (NewGame zeroGame) firstRoundWorld = Res.ok (game', w') ∧
      (List.finRange AmountOfPlayers).map
          (fun i => (List.finRange AmountOfRounds).map (game'.players i).roundScores)
        = [[15, 0, 0, 0], [7, 0, 0, 0], [25, 0, 0, 0], [10, 0, 0, 0]] ∧
      (List.finRange AmountOfRounds).map game'.roundWinner = [1, 0, 0, 0] ∧
      game'.roundIndex = 1 :=
  ⟨rfl, by decide, fun _ => rfl, _, _, rfl, by decide, by decide, rfl⟩

end DiceGame
